import Mathlib

/-!
Verification of the `interactive-code` web component's rendering core
(`interactive-code.element.ts`, `code-binding.element.ts`).

The development shallowly embeds the data model and the operations of the
component: the binding table, the condition evaluator, the template
assembler, the marker protection / substitution machinery with the four
lexical highlighters, the cross-line zone tracker, and the interactive
operations of `<code-binding>` (toggle / increment / decrement) together
with the guarded inline-editor handlers.  JavaScript strings are modelled
as `String` / `List Char`, JavaScript primitive values as the inductive
`JSVal` (numbers as integers: no claim exercises non-integer or NaN
arithmetic), the `Map`/`Set` containers as insertion-ordered lists, and the
regex passes as explicit left-to-right scanners that mirror the semantics
of `String.prototype.replace` for the concrete patterns of the source.
-/

namespace ICode

/-- The four declared languages (`type Language` in the source). -/
inductive Language where
  | html
  | scss
  | typescript
  | shell
deriving DecidableEq, Repr

/-- `interface CommentStyle` of the source. -/
structure CommentStyle where
  line : String
  lineIndicator : String
  blockStart : String
  blockIndicator : String
  blockEnd : String
  blockEndIndicator : String
deriving DecidableEq, Repr

/-- `getCommentStyle` (interactive-code.element.ts).  HTML entities are kept
verbatim as in the source. -/
def getCommentStyle : Language → CommentStyle
  | .html =>
    { line := "&lt;!-- ", lineIndicator := "&lt;!--", blockStart := "&lt;!-- ",
      blockIndicator := "&lt;!--", blockEnd := " --&gt;", blockEndIndicator := "--&gt;" }
  | .shell =>
    { line := "# ", lineIndicator := "#", blockStart := "# ",
      blockIndicator := "#", blockEnd := "", blockEndIndicator := "" }
  | .typescript =>
    { line := "// ", lineIndicator := "//", blockStart := "/* ",
      blockIndicator := "/*", blockEnd := " */", blockEndIndicator := "*/" }
  | .scss =>
    { line := "// ", lineIndicator := "//", blockStart := "/* ",
      blockIndicator := "/*", blockEnd := " */", blockEndIndicator := "*/" }

/-- JavaScript primitive values as stored in a binding's `_value` field.
Numbers are modelled as integers (the claims only exercise integral
values; JS `NaN` and non-integral floats are outside the model). -/
inductive JSVal where
  | undefined
  | null
  | bool (b : Bool)
  | num (n : Int)
  | str (s : String)
deriving DecidableEq, Repr

instance : BEq JSVal := ⟨fun a b => decide (a = b)⟩

/-- JS `String(v)` on the modelled domain (`String(n)` on an integral JS
number prints the plain decimal form, which is `Int.repr`). -/
def jsToString : JSVal → String
  | .undefined => "undefined"
  | .null => "null"
  | .bool true => "true"
  | .bool false => "false"
  | .num n => Int.repr n
  | .str s => s

/-- JS falsiness on the modelled domain (`NaN` excluded with floats). -/
def jsFalsy : JSVal → Bool
  | .undefined => true
  | .null => true
  | .bool b => !b
  | .num n => n == 0
  | .str s => s == ""

/-- JS `a || b`. -/
def jsOr (a b : JSVal) : JSVal := if jsFalsy a then b else a

/-- JS `a ?? b`. -/
def jsNullish (a b : JSVal) : JSVal :=
  match a with
  | .undefined => b
  | .null => b
  | _ => a

/-- `type BindingType` of code-binding.element.ts.  The source's `attribute`
variant is spelled `attr` (Lean reserves the word). -/
inductive BindingType where
  | boolean
  | number
  | string
  | select
  | color
  | comment
  | attr
  | readonly
deriving DecidableEq, Repr

instance : BEq BindingType := ⟨fun a b => decide (a = b)⟩

/-- One `<code-binding>` element: its reflected attributes and its stored
`_value` / `_disabled` fields. -/
structure CodeBinding where
  key : String
  type : BindingType
  value : JSVal
  disabled : Bool
  min : Option Int
  max : Option Int
  step : Option Int
  options : List String
  carousel : Bool
deriving DecidableEq, Repr

/-- The host's `bindings : Map<string, CodeBindingElement>`, as an
association list (insertion-ordered, keys unique in practice). -/
def Bindings := List (String × CodeBinding)

/-- `this.bindings.get(key)`. -/
def bindingsGet (bs : Bindings) (key : String) : Option CodeBinding :=
  match bs with
  | [] => none
  | (k, b) :: rest => if k = key then some b else bindingsGet rest key

/-- `interface ConditionalContent` of the source. -/
structure ConditionalContent where
  content : String
  condition : Option String
deriving DecidableEq, Repr

/-! JS string primitives, spelled out over `List Char` so that every
definition evaluates by kernel reduction and is easy to reason about. -/

/-- JS `String.prototype.trim` on a char list (ASCII whitespace). -/
def trimL (l : List Char) : List Char :=
  ((l.dropWhile Char.isWhitespace).reverse.dropWhile Char.isWhitespace).reverse

/-- JS `s.trim()`. -/
def jsTrim (s : String) : String := ⟨trimL s.data⟩

/-- JS `s.slice(n)` (for the ASCII strings of this code base). -/
def jsSliceFrom (s : String) (n : Nat) : String := ⟨s.data.drop n⟩

/-- JS `s.startsWith('!')`. -/
def startsBang (s : String) : Bool :=
  match s.data with
  | '!' :: _ => true
  | _ => false

/-- `s.indexOf('=') !== -1`. -/
def containsEq (s : String) : Bool := s.data.contains '='

/-- `expr.slice(0, eqIndex)` where `eqIndex = expr.indexOf('=')`. -/
def beforeEq (s : String) : String := ⟨s.data.takeWhile (fun ch => ch ≠ '=')⟩

/-- `expr.slice(eqIndex + 1)` where `eqIndex = expr.indexOf('=')`. -/
def afterEq (s : String) : String := ⟨(s.data.dropWhile (fun ch => ch ≠ '=')).drop 1⟩

/-- `evaluateCondition` (interactive-code.element.ts, lines 254-287),
transcribed clause by clause.  `expr.indexOf('=')` / `slice` are rendered
with `beforeEq` / `afterEq` (split at the first `'='`). -/
def evaluateCondition (bindings : Bindings) (condition : Option String) : Bool :=
  match condition with
  | none => true
  | some c =>
    if c = "" then true
    else
      let isNegated := startsBang c
      let expr := if isNegated then jsTrim (jsSliceFrom c 1) else jsTrim c
      if containsEq expr then
        let key := jsTrim (beforeEq expr)
        let expectedValue := jsTrim (afterEq expr)
        match bindingsGet bindings key with
        | none => isNegated
        | some binding =>
          let matchesV := jsToString binding.value == expectedValue
          if isNegated then !matchesV else matchesV
      else
        let key := expr
        match bindingsGet bindings key with
        | none => isNegated
        | some binding =>
          let value := binding.value
          let isTruthy :=
            !(value == JSVal.undefined) && !(value == JSVal.null) &&
            !(value == JSVal.bool false) && !(value == JSVal.str "undefined")
          if isNegated then !isTruthy else isTruthy

/-- The condition evaluator exactly as claim C1 states it: the remainder
after the optional `'!'` is used as is — no whitespace trimming anywhere —
and the truthiness test compares `String(value)` against `"undefined"`. -/
def evaluateConditionClaim (bindings : Bindings) (condition : Option String) : Bool :=
  match condition with
  | none => true
  | some c =>
    if c = "" then true
    else
      let negated := startsBang c
      let remainder := if negated then jsSliceFrom c 1 else c
      if containsEq remainder then
        let key := beforeEq remainder
        let expectedValue := afterEq remainder
        match bindingsGet bindings key with
        | none => negated
        | some binding => xor negated (jsToString binding.value == expectedValue)
      else
        match bindingsGet bindings remainder with
        | none => negated
        | some binding =>
          let value := binding.value
          let truthy :=
            !(value == JSVal.undefined) && !(value == JSVal.null) &&
            !(value == JSVal.bool false) && !(jsToString value == "undefined")
          xor negated truthy

/-- The condition evaluator as the amended claim states it: like
`evaluateConditionClaim`, but the remainder is trimmed of surrounding
whitespace, and after the split at the first `'='` the key and the expected
value are each trimmed, before any lookup or comparison. -/
def evaluateConditionAmended (bindings : Bindings) (condition : Option String) : Bool :=
  match condition with
  | none => true
  | some c =>
    if c = "" then true
    else
      let negated := startsBang c
      let remainder := jsTrim (if negated then jsSliceFrom c 1 else c)
      if containsEq remainder then
        let key := jsTrim (beforeEq remainder)
        let expectedValue := jsTrim (afterEq remainder)
        match bindingsGet bindings key with
        | none => negated
        | some binding => xor negated (jsToString binding.value == expectedValue)
      else
        match bindingsGet bindings remainder with
        | none => negated
        | some binding =>
          let value := binding.value
          let truthy :=
            !(value == JSVal.undefined) && !(value == JSVal.null) &&
            !(value == JSVal.bool false) && !(jsToString value == "undefined")
          xor negated truthy

/-! Facts about decimal printing needed to compare `String(value)` with the
literal `"undefined"`. -/

theorem digitChar_lt_ne_u : ∀ m, m < 10 → Nat.digitChar m ≠ 'u' := by decide

theorem mem_toDigitsCore (b : Nat) (hb : 0 < b) :
    ∀ (fuel n : Nat) (ds : List Char) (c : Char),
      c ∈ Nat.toDigitsCore b fuel n ds → c ∈ ds ∨ ∃ m, m < b ∧ c = Nat.digitChar m := by
  intro fuel
  induction fuel with
  | zero => intro n ds c hc; exact Or.inl hc
  | succ f ih =>
    intro n ds c hc
    unfold Nat.toDigitsCore at hc
    by_cases h : n / b = 0
    · simp only [h, if_pos rfl] at hc
      rcases List.mem_cons.mp hc with h1 | h1
      · exact Or.inr ⟨n % b, Nat.mod_lt _ hb, h1⟩
      · exact Or.inl h1
    · simp only [if_neg h] at hc
      rcases ih (n / b) (Nat.digitChar (n % b) :: ds) c hc with h1 | h1
      · rcases List.mem_cons.mp h1 with h2 | h2
        · exact Or.inr ⟨n % b, Nat.mod_lt _ hb, h2⟩
        · exact Or.inl h2
      · exact Or.inr h1

theorem natRepr_ne_undefined (n : Nat) : Nat.repr n ≠ "undefined" := by
  intro h
  have hdata : (Nat.toDigits 10 n) = "undefined".data := congrArg String.data h
  have hu : 'u' ∈ Nat.toDigits 10 n := by
    rw [hdata]; decide
  rcases mem_toDigitsCore 10 (by norm_num) (n + 1) n [] 'u' hu with h1 | ⟨m, hm, hme⟩
  · simp at h1
  · exact digitChar_lt_ne_u m hm hme.symm

theorem intRepr_ne_undefined (n : Int) : Int.repr n ≠ "undefined" := by
  cases n with
  | ofNat m => exact natRepr_ne_undefined m
  | negSucc m =>
    intro h
    have hdata : ("-" ++ Nat.repr (m + 1)).data = "undefined".data := congrArg String.data h
    rw [String.data_append] at hdata
    simp at hdata

theorem jsvalBeq (a b : JSVal) : (a == b) = decide (a = b) := rfl

/-- The two truthiness tests (the code's `value !== 'undefined'` versus the
claim's `String(value) != "undefined"`) agree on every modelled value. -/
theorem truthy_eq (v : JSVal) :
    (!(v == JSVal.undefined) && !(v == JSVal.null) &&
      !(v == JSVal.bool false) && !(v == JSVal.str "undefined"))
    = (!(v == JSVal.undefined) && !(v == JSVal.null) &&
      !(v == JSVal.bool false) && !(jsToString v == "undefined")) := by
  cases v with
  | undefined => rfl
  | null => rfl
  | bool b => cases b <;> rfl
  | str s =>
    have : ((JSVal.str s == JSVal.str "undefined") : Bool) = (s == "undefined") := by
      rw [jsvalBeq]
      by_cases h : s = "undefined"
      · subst h; rfl
      · have h1 : decide (JSVal.str s = JSVal.str "undefined") = false :=
          decide_eq_false (fun heq => h (JSVal.str.inj heq))
        have h2 : (s == "undefined") = false := beq_eq_false_iff_ne.mpr h
        rw [h1, h2]
    simp only [jsToString]
    rw [this]
  | num n =>
    have h1 : ((JSVal.num n == JSVal.str "undefined") : Bool) = false := by
      rw [jsvalBeq]; exact decide_eq_false (fun heq => JSVal.noConfusion heq)
    have h2 : ((jsToString (JSVal.num n) == "undefined") : Bool) = false := by
      simp only [jsToString]
      exact beq_eq_false_iff_ne.mpr (intRepr_ne_undefined n)
    rw [h1, h2]

theorem ite_not_eq_xor (n m : Bool) : (if n then !m else m) = xor n m := by
  cases n <;> cases m <;> rfl

/-- C1 (amended), stated as a refinement: the source's `evaluateCondition`
agrees with the amended claim's description on every binding table and
every condition expression. -/
theorem C1_evaluateCondition_amended_correct (bindings : Bindings)
    (condition : Option String) :
    evaluateCondition bindings condition = evaluateConditionAmended bindings condition := by
  cases condition with
  | none => rfl
  | some c =>
    simp only [evaluateCondition, evaluateConditionAmended]
    by_cases hc : c = ""
    · simp only [if_pos hc]
    · simp only [if_neg hc]
      by_cases hneg : startsBang c = true
      · simp only [if_pos hneg, hneg, if_true]
        by_cases he : containsEq (jsTrim (jsSliceFrom c 1)) = true
        · simp only [if_pos he]
          cases bindingsGet bindings (jsTrim (beforeEq (jsTrim (jsSliceFrom c 1)))) with
          | none => rfl
          | some binding => simp [truthy_eq]
        · simp only [if_neg he]
          cases bindingsGet bindings (jsTrim (jsSliceFrom c 1)) with
          | none => rfl
          | some binding => simp [truthy_eq]
      · simp only [if_neg hneg, Bool.not_eq_true] at *
        simp only [hneg, if_false, Bool.false_eq_true]
        by_cases he : containsEq (jsTrim c) = true
        · simp only [if_pos he]
          cases bindingsGet bindings (jsTrim (beforeEq (jsTrim c))) with
          | none => rfl
          | some binding => simp [truthy_eq]
        · simp only [if_neg he]
          cases bindingsGet bindings (jsTrim c) with
          | none => rfl
          | some binding => simp [truthy_eq]

/-- A helper binding table for the C1 counterexample: one boolean binding
with key `"k"` and value `true`. -/
def c1Bindings : Bindings :=
  [("k", { key := "k", type := .boolean, value := .bool true, disabled := false,
           min := none, max := none, step := none, options := [], carousel := false })]

/-- C1 counterexample: on the condition `"k "` (trailing blank) the code
trims and finds the binding (result `true`), while the claim's untrimmed
lookup misses it (result `false`). -/
theorem C1_counterexample :
    evaluateCondition c1Bindings (some "k ") = true ∧
    evaluateConditionClaim c1Bindings (some "k ") = false := by
  constructor <;> decide

/-! ## `<code-binding>` operations (code-binding.element.ts) -/

/-- JS `Number(v)` on the values that can reach it through `parseValue`
(which filters out `null`/`undefined` first).  A string input would require
decimal parsing and can produce `NaN`, which the integer model does not
represent; no value assigned to a number-typed binding in this development
is a string, so that case (and the unreachable `undefined` case) is mapped
to `0` here. -/
def jsNumber : JSVal → JSVal
  | .bool true => .num 1
  | .bool false => .num 0
  | .null => .num 0
  | .num n => .num n
  | .undefined => .num 0
  | .str _ => .num 0

/-- `parseValue` (code-binding.element.ts, lines 86-101). -/
def parseValue (t : BindingType) (v : JSVal) : JSVal :=
  match v with
  | .null => .undefined
  | .undefined => .undefined
  | _ =>
    match t with
    | .boolean => .bool (v == .str "true" || v == .bool true)
    | .comment => .bool (v == .str "true" || v == .bool true)
    | .attr => .bool (v == .str "true" || v == .bool true)
    | .number =>
      match v with
      | .num n => .num n
      | _ => jsNumber v
    | _ => .str (jsToString v)

/-- The `value` setter (code-binding.element.ts, lines 47-53): parse, store,
and fire `emitChange` iff the stored value differs from the old one (JS
strict inequality).  The returned flag records whether the event fired. -/
def setValue (b : CodeBinding) (v : JSVal) : CodeBinding × Bool :=
  let newValue := parseValue b.type v
  ({ b with value := newValue }, !(b.value == newValue))

/-- `opts.indexOf(this._value)`: index of the first option strictly equal
to the value (JS `===`, hence true exactly on `JSVal.str o`), `-1` when
absent. -/
def jsIndexOf (opts : List String) (v : JSVal) : Int :=
  match opts with
  | [] => -1
  | o :: rest =>
    if v == JSVal.str o then 0
    else
      let r := jsIndexOf rest v
      if r = -1 then -1 else r + 1

/-- `toggle` (code-binding.element.ts, lines 124-136).  `opts[nextIndex]` is
rendered with `getD`; the computed index is always in range (the source
relies on the same fact), so the default is never used. -/
def toggle (b : CodeBinding) : CodeBinding × Bool :=
  if b.disabled then (b, false)
  else if b.type == .boolean || b.type == .comment || b.type == .attr then
    setValue b (.bool (jsFalsy b.value))
  else if b.type == .select then
    let opts := b.options
    if opts.length > 0 then
      let currentIndex : Int := jsIndexOf opts b.value
      let nextIndex : Int := (currentIndex + 1) % (opts.length : Int)
      setValue b (.str (opts.getD nextIndex.toNat ""))
    else (b, false)
  else (b, false)

/-- `(this._value || 0)` coerced for the numeric addition that follows it:
for a number-typed binding the stored value is a number or `undefined`
(see `parseValue`), and JS `v || 0` then yields the number itself or `0`. -/
def numOrZero : JSVal → Int
  | .num n => n
  | _ => 0

/-- `increment` (code-binding.element.ts, lines 139-148). -/
def increment (b : CodeBinding) : CodeBinding × Bool :=
  if b.disabled then (b, false)
  else if b.type == .number then
    let step := b.step.getD 1
    let newValue0 := numOrZero b.value + step
    let newValue :=
      match b.max with
      | some m => if newValue0 > m then m else newValue0
      | none => newValue0
    setValue b (.num newValue)
  else (b, false)

/-- `decrement` (code-binding.element.ts, lines 151-160). -/
def decrement (b : CodeBinding) : CodeBinding × Bool :=
  if b.disabled then (b, false)
  else if b.type == .number then
    let step := b.step.getD 1
    let newValue0 := numOrZero b.value - step
    let newValue :=
      match b.min with
      | some m => if newValue0 < m then m else newValue0
      | none => newValue0
    setValue b (.num newValue)
  else (b, false)

/-- C7: for a non-disabled number binding holding the number `n`,
`increment()` adds the step (default `1`) and clamps the result at `max`
when `max` is set, and `decrement()` subtracts the step and clamps at
`min` when `min` is set. -/
theorem C7_increment_decrement_clamp (b : CodeBinding) (n : Int)
    (hd : b.disabled = false) (ht : b.type = BindingType.number)
    (hv : b.value = JSVal.num n) :
    (increment b).1.value =
      JSVal.num (match b.max with
                 | some m => min (n + b.step.getD 1) m
                 | none => n + b.step.getD 1) ∧
    (decrement b).1.value =
      JSVal.num (match b.min with
                 | some m => max (n - b.step.getD 1) m
                 | none => n - b.step.getD 1) := by
  obtain ⟨key, ty, v, dis, mn, mx, stp, opts, car⟩ := b
  simp only at hd ht hv
  subst hd ht hv
  constructor
  · cases mx with
    | none => simp [increment, setValue, parseValue, numOrZero]
    | some m =>
      simp [increment, setValue, parseValue, numOrZero]
      omega
  · cases mn with
    | none => simp [decrement, setValue, parseValue, numOrZero]
    | some m =>
      simp [decrement, setValue, parseValue, numOrZero]
      omega

/-- The concrete binding of the claim: `value=95, max=100, step=10`. -/
def c7Binding : CodeBinding :=
  { key := "n", type := .number, value := .num 95, disabled := false,
    min := none, max := some 100, step := some 10, options := [], carousel := false }

/-- C7 witness: one increment of the 95/100/10 binding yields exactly 100. -/
theorem C7_witness :
    c7Binding.disabled = false ∧ c7Binding.type = BindingType.number ∧
    c7Binding.value = JSVal.num 95 ∧
    (increment c7Binding).1.value = JSVal.num 100 := by
  refine ⟨rfl, rfl, rfl, ?_⟩
  have h := (C7_increment_decrement_clamp c7Binding 95 rfl rfl rfl).1
  simpa using h

/-! Lemmas about `jsIndexOf` and `toggle` on select bindings. -/

theorem jsIndexOf_not_mem (opts : List String) (v : JSVal)
    (h : ∀ o ∈ opts, v ≠ JSVal.str o) : jsIndexOf opts v = -1 := by
  induction opts with
  | nil => rfl
  | cons o rest ih =>
    have hne : (v == JSVal.str o) = false := by
      rw [jsvalBeq]
      exact decide_eq_false (h o (List.mem_cons_self o rest))
    simp only [jsIndexOf, hne, Bool.false_eq_true, if_false]
    rw [ih (fun o' ho' => h o' (List.mem_cons_of_mem o ho'))]
    rfl

theorem jsIndexOf_get (opts : List String) (hnd : opts.Nodup) (i : Nat)
    (h : i < opts.length) :
    jsIndexOf opts (JSVal.str (opts.get ⟨i, h⟩)) = (i : Int) := by
  induction opts generalizing i with
  | nil => simp at h
  | cons o rest ih =>
    rcases List.nodup_cons.mp hnd with ⟨hno, hnd'⟩
    cases i with
    | zero => simp [jsIndexOf, jsvalBeq]
    | succ j =>
      have hj : j < rest.length := by simpa using h
      have hget : (o :: rest).get ⟨j + 1, h⟩ = rest.get ⟨j, hj⟩ := rfl
      rw [hget]
      have hne : (JSVal.str (rest.get ⟨j, hj⟩) == JSVal.str o) = false := by
        rw [jsvalBeq]
        refine decide_eq_false (fun heq => ?_)
        have hmem : rest.get ⟨j, hj⟩ ∈ rest := rest.get_mem j hj
        rw [JSVal.str.inj heq] at hmem
        exact hno hmem
      simp only [jsIndexOf, hne, Bool.false_eq_true, if_false, ih hnd' j hj]
      rw [if_neg (by omega)]
      push_cast
      ring

/-- `toggle` never changes the `type`, `disabled` or `options` fields. -/
theorem toggle_fields (b : CodeBinding) :
    (toggle b).1.type = b.type ∧ (toggle b).1.disabled = b.disabled ∧
    (toggle b).1.options = b.options := by
  simp only [toggle, setValue]
  split_ifs <;> simp

/-- One select toggle moves the value from index `i` to index
`(i+1) % length` of the options list (distinct options assumed, since
`indexOf` finds the first occurrence). -/
theorem toggle_select_step (b : CodeBinding) (i : Nat)
    (ht : b.type = BindingType.select) (hd : b.disabled = false)
    (hnd : b.options.Nodup) (hi : i < b.options.length)
    (hv : b.value = JSVal.str (b.options.get ⟨i, hi⟩)) :
    (toggle b).1 =
      { b with
        value := JSVal.str (b.options.get ⟨(i + 1) % b.options.length, Nat.mod_lt _ (by omega)⟩) } := by
  have hlen : 0 < b.options.length := by omega
  obtain ⟨key, ty, v, dis, mn, mx, stp, opts, car⟩ := b
  simp only at ht hd hnd hi hv hlen
  subst ht hd hv
  have hidx := jsIndexOf_get opts hnd i hi
  have hcast : (((i : Int) + 1) % ((opts.length : Nat) : Int)).toNat = (i + 1) % opts.length := by
    have h1 : ((i : Int) + 1) = ((i + 1 : Nat) : Int) := by push_cast; ring
    rw [h1, ← Int.ofNat_emod]
    exact Int.toNat_ofNat _
  simp [toggle, setValue, parseValue, jsToString, hlen]
  simp only [List.get_eq_getElem] at hidx
  rw [hidx, hcast, List.getElem?_eq_getElem (Nat.mod_lt _ hlen)]
  rfl

/-- `k` successive toggles (`toggle` composed `k` times, threading the
updated binding). -/
def toggleN : Nat → CodeBinding → CodeBinding
  | 0, b => b
  | k + 1, b => toggleN k (toggle b).1

theorem toggleN_select_value (k : Nat) :
    ∀ (b : CodeBinding) (i : Nat) (ht : b.type = BindingType.select)
      (hd : b.disabled = false) (hnd : b.options.Nodup)
      (hi : i < b.options.length)
      (hv : b.value = JSVal.str (b.options.get ⟨i, hi⟩)),
      (toggleN k b).value =
        JSVal.str (b.options.get ⟨(i + k) % b.options.length,
          Nat.mod_lt _ (by omega)⟩) := by
  induction k with
  | zero =>
    intro b i ht hd hnd hi hv
    simpa [toggleN, Nat.mod_eq_of_lt hi] using hv
  | succ k ih =>
    intro b i ht hd hnd hi hv
    have hlen : 0 < b.options.length := by omega
    have hstep := toggle_select_step b i ht hd hnd hi hv
    have hi' : (i + 1) % b.options.length < b.options.length := Nat.mod_lt _ hlen
    have h1 : toggleN (k + 1) b = toggleN k (toggle b).1 := rfl
    rw [h1, hstep]
    have := ih { b with value := JSVal.str (b.options.get ⟨(i + 1) % b.options.length, hi'⟩) }
      ((i + 1) % b.options.length) ht hd hnd hi' rfl
    rw [this]
    have hidx : ((i + 1) % b.options.length + k) % b.options.length =
        (i + (k + 1)) % b.options.length := by
      rw [Nat.mod_add_mod]
      have : i + 1 + k = i + (k + 1) := by omega
      rw [this]
    simp only [hidx]

/-- The concrete select binding of the claim:
`options=["a","b","c"], value="a"`. -/
def c8Binding : CodeBinding :=
  { key := "s", type := .select, value := .str "a", disabled := false,
    min := none, max := none, step := none,
    options := ["a", "b", "c"], carousel := false }

/-- C8: the three concrete toggles on `["a","b","c"]` starting at `"a"`
yield `"b"`, `"c"`, `"a"`; and in general, on a non-disabled select binding
whose (pairwise distinct) options list contains the current value at index
`i`, `n` successive toggles (`n` the number of options) restore the
original value. -/
theorem C8_select_toggle_cycles (b : CodeBinding) (i : Nat)
    (ht : b.type = BindingType.select) (hd : b.disabled = false)
    (hnd : b.options.Nodup) (hi : i < b.options.length)
    (hv : b.value = JSVal.str (b.options.get ⟨i, hi⟩)) :
    ((toggle c8Binding).1.value = JSVal.str "b" ∧
     (toggle (toggle c8Binding).1).1.value = JSVal.str "c" ∧
     (toggle (toggle (toggle c8Binding).1).1).1.value = JSVal.str "a") ∧
    (toggleN b.options.length b).value = b.value := by
  constructor
  · refine ⟨by decide, by decide, by decide⟩
  · have := toggleN_select_value b.options.length b i ht hd hnd hi hv
    rw [this, hv]
    congr 1
    have : (i + b.options.length) % b.options.length = i := by
      rw [Nat.add_mod_right]
      exact Nat.mod_eq_of_lt hi
    simp only [this]

/-- C8 witness: the theorem applied to the concrete `["a","b","c"]`
binding at index 0. -/
theorem C8_witness :
    c8Binding.type = BindingType.select ∧ c8Binding.disabled = false ∧
    c8Binding.options.Nodup ∧ (0 : Nat) < c8Binding.options.length ∧
    c8Binding.value = JSVal.str (c8Binding.options.get ⟨0, by decide⟩) ∧
    (toggleN c8Binding.options.length c8Binding).value = c8Binding.value := by
  refine ⟨rfl, rfl, by decide, by decide, rfl, ?_⟩
  exact (C8_select_toggle_cycles c8Binding 0 rfl rfl (by decide) (by decide) rfl).2

/-- A select binding whose options list contains a duplicate:
`options=["a","b","a"], value="b"`. -/
def c8DupBinding : CodeBinding :=
  { key := "s", type := .select, value := .str "b", disabled := false,
    min := none, max := none, step := none,
    options := ["a", "b", "a"], carousel := false }

/-- C8 counterexample: the spec's data model allows duplicate options, and
on `["a","b","a"]` with value `"b"` three successive toggles yield `"a"`,
not the original `"b"` (`indexOf` finds the first occurrence, so the walk
b → a → b → a never visits index 2 as a starting point).  The claim's
unqualified "n successive toggles on a list of n options restore the
original value" is therefore false. -/
theorem C8_counterexample :
    c8DupBinding.type = BindingType.select ∧ c8DupBinding.disabled = false ∧
    c8DupBinding.options.length = 3 ∧ c8DupBinding.value = JSVal.str "b" ∧
    (toggleN 3 c8DupBinding).value = JSVal.str "a" ∧
    (toggleN c8DupBinding.options.length c8DupBinding).value ≠ c8DupBinding.value := by
  refine ⟨rfl, rfl, rfl, rfl, by decide, by decide⟩

/-- C10: on a non-disabled select binding whose value occurs nowhere in the
options list, toggling with an empty list is a complete no-op (value kept,
no change event), and toggling with a non-empty list selects the first
option. -/
theorem C10_toggle_fallbacks (b : CodeBinding)
    (ht : b.type = BindingType.select) (hd : b.disabled = false)
    (hnm : ∀ o ∈ b.options, b.value ≠ JSVal.str o) :
    (b.options = [] → toggle b = (b, false)) ∧
    (∀ o rest, b.options = o :: rest → (toggle b).1.value = JSVal.str o) := by
  constructor
  · intro hopts
    obtain ⟨key, ty, v, dis, mn, mx, stp, opts, car⟩ := b
    simp only at ht hd hopts
    subst ht hd hopts
    simp [toggle]
  · intro o rest hopts
    have hidx : jsIndexOf b.options b.value = -1 := jsIndexOf_not_mem _ _ hnm
    obtain ⟨key, ty, v, dis, mn, mx, stp, opts, car⟩ := b
    simp only at ht hd hopts hidx
    subst ht hd hopts
    have hz : ((-1 + 1 : Int) % (((o :: rest).length : Nat) : Int)).toNat = 0 := by
      norm_num
    simp [toggle, setValue, parseValue, jsToString, hidx, hz]

/-- C10 witness: the theorem applied to a concrete binding with options
`["x","y"]` and value `"z"` (first-option fallback), and to one with no
options (no-op). -/
theorem C10_witness :
    (toggle { key := "s", type := .select, value := JSVal.str "z",
              disabled := false, min := none, max := none, step := none,
              options := ["x", "y"], carousel := false }).1.value = JSVal.str "x" ∧
    toggle { key := "s", type := .select, value := JSVal.str "z",
             disabled := false, min := none, max := none, step := none,
             options := [], carousel := false } =
      ({ key := "s", type := .select, value := JSVal.str "z",
         disabled := false, min := none, max := none, step := none,
         options := [], carousel := false }, false) := by
  constructor
  · exact (C10_toggle_fallbacks _ rfl rfl (by decide)).2 "x" ["y"] rfl
  · exact (C10_toggle_fallbacks _ rfl rfl (by decide)).1 rfl

/-! ## Template assembly (C6) -/

/-- `updateTemplateContent` (interactive-code.element.ts, lines 236-252):
evaluate each section's condition, push matching contents in order, then
join with the separator sentinel when `show-separators` is set and more
than one part was kept, else with a plain newline (JS `Array.join`). -/
def updateTemplateContent (bindings : Bindings)
    (conditionalContents : List ConditionalContent) (showSeparators : Bool) : String :=
  let parts := conditionalContents.foldl
    (fun parts cc =>
      if evaluateCondition bindings cc.condition then parts ++ [cc.content] else parts) []
  if showSeparators && parts.length > 1 then
    String.intercalate "\n__SECTION_SEPARATOR__\n" parts
  else
    String.intercalate "\n" parts

/-- The assembler exactly as claim C6 states it: the kept contents are
those of the sections whose condition evaluates true, in original
declaration order; with the separators flag and more than one kept part
they are joined with the separator sentinel line, otherwise with a plain
newline. -/
def assembleClaim (bindings : Bindings)
    (conditionalContents : List ConditionalContent) (separators : Bool) : String :=
  let kept := (conditionalContents.filter
    (fun cc => evaluateCondition bindings cc.condition)).map ConditionalContent.content
  if separators && kept.length > 1 then
    String.intercalate "\n__SECTION_SEPARATOR__\n" kept
  else
    String.intercalate "\n" kept

theorem foldl_push_eq_filter_map {α β : Type} (p : α → Bool) (f : α → β)
    (l : List α) :
    ∀ acc : List β,
      l.foldl (fun acc x => if p x then acc ++ [f x] else acc) acc =
        acc ++ (l.filter p).map f := by
  induction l with
  | nil => intro acc; simp
  | cons x xs ih =>
    intro acc
    by_cases hp : p x
    · simp [List.foldl_cons, if_pos hp, ih, List.filter_cons, hp]
    · simp [List.foldl_cons, if_neg hp, ih, List.filter_cons, hp]

/-- C6: the assembled template text is exactly the claim's
filter-and-join description, for every section list, binding table and
separators flag. -/
theorem C6_updateTemplateContent_correct (bindings : Bindings)
    (conditionalContents : List ConditionalContent) (showSeparators : Bool) :
    updateTemplateContent bindings conditionalContents showSeparators =
      assembleClaim bindings conditionalContents showSeparators := by
  unfold updateTemplateContent assembleClaim
  rw [foldl_push_eq_filter_map]
  simp

/-! ## The reentrancy guard of the inline editors (C9) -/

/-- The host-element state relevant to the reentrancy guard: the
`_internalChange` flag and the binding being written. -/
structure GuardState where
  internalChange : Bool
  binding : CodeBinding

/-- `binding.value = newValue` as observed by the host: the setter stores
the parsed value, and when it emits a change event, externally installed
change handlers run synchronously and may throw — modelled by
`userHandler`, which returns `some error` to throw.  The exception
propagates to the assigning caller after the value is stored. -/
def assignBindingValue (b : CodeBinding) (v : JSVal)
    (userHandler : JSVal → Option String) : CodeBinding × Option String :=
  let r := setValue b v
  (r.1, if r.2 then userHandler r.1.value else none)

/-- `_handleShadowChange` (interactive-code.element.ts, lines 371-397),
restricted to its guard-relevant state.  `keyFound` abbreviates the two
early-return guards (`data-binding` key present and bound); the
display-span patch and the conditional `updateCode()` call do not touch
`_internalChange`.  The value assignment sits inside
`try … finally { this._internalChange = false }`: the flag is cleared on
the normal and on the throwing path alike, and a thrown error then
propagates (second component). -/
def handleShadowChange (st : GuardState) (keyFound : Bool) (newValue : String)
    (userHandler : JSVal → Option String) : GuardState × Option String :=
  if keyFound then
    let st1 := { st with internalChange := true }
    let r := assignBindingValue st1.binding (.str newValue) userHandler
    let st2 := { st1 with binding := r.1, internalChange := false }
    (st2, r.2)
  else (st, none)

/-- `_handleInlineNumberInput` (lines 412-431), same guard structure; the
input's `valueAsNumber || 0` is modelled by `Option Int` (`none` for the
`NaN` of an empty field) defaulted to `0`. -/
def handleInlineNumberInput (st : GuardState) (keyFound : Bool)
    (rawValue : Option Int) (userHandler : JSVal → Option String) :
    GuardState × Option String :=
  if keyFound then
    let newValue : Int := rawValue.getD 0
    let st1 := { st with internalChange := true }
    let r := assignBindingValue st1.binding (.num newValue) userHandler
    let st2 := { st1 with binding := r.1, internalChange := false }
    (st2, r.2)
  else (st, none)

/-- `_handleInlineStringInput` (lines 433-452), same guard structure. -/
def handleInlineStringInput (st : GuardState) (keyFound : Bool)
    (newValue : String) (userHandler : JSVal → Option String) :
    GuardState × Option String :=
  if keyFound then
    let st1 := { st with internalChange := true }
    let r := assignBindingValue st1.binding (.str newValue) userHandler
    let st2 := { st1 with binding := r.1, internalChange := false }
    (st2, r.2)
  else (st, none)

/-- `_handleInlineColorInput` (lines 454-478), same guard structure (the
color-preview and text patches touch only the DOM). -/
def handleInlineColorInput (st : GuardState) (keyFound : Bool)
    (newValue : String) (userHandler : JSVal → Option String) :
    GuardState × Option String :=
  if keyFound then
    let st1 := { st with internalChange := true }
    let r := assignBindingValue st1.binding (.str newValue) userHandler
    let st2 := { st1 with binding := r.1, internalChange := false }
    (st2, r.2)
  else (st, none)

/-- C9: for each of the four guarded inline-editor handlers, the
`_internalChange` guard is `false` after the handler returns — on the
guarded path unconditionally (in particular when the value assignment
throws, i.e. for every `userHandler`, including throwing ones), and on the
early-return paths whenever the guard was in its released state on entry. -/
theorem C9_guard_always_released (st : GuardState) (kf : Bool)
    (s : String) (rawN : Option Int) (uh : JSVal → Option String)
    (hst : st.internalChange = false) :
    ((handleShadowChange st true s uh).1.internalChange = false ∧
     (handleInlineNumberInput st true rawN uh).1.internalChange = false ∧
     (handleInlineStringInput st true s uh).1.internalChange = false ∧
     (handleInlineColorInput st true s uh).1.internalChange = false) ∧
    ((handleShadowChange st kf s uh).1.internalChange = false ∧
     (handleInlineNumberInput st kf rawN uh).1.internalChange = false ∧
     (handleInlineStringInput st kf s uh).1.internalChange = false ∧
     (handleInlineColorInput st kf s uh).1.internalChange = false) := by
  constructor
  · exact ⟨rfl, rfl, rfl, rfl⟩
  · cases kf
    · exact ⟨hst, hst, hst, hst⟩
    · exact ⟨rfl, rfl, rfl, rfl⟩

/-- C9 witness: a concrete guarded call with a throwing change handler
still comes back with the guard released (and the error propagated). -/
theorem C9_witness :
    (handleShadowChange ⟨false, c8Binding⟩ true "b"
      (fun _ => some "boom")).1.internalChange = false ∧
    (handleShadowChange ⟨false, c8Binding⟩ true "b"
      (fun _ => some "boom")).2 = some "boom" := by
  refine ⟨?_, by decide⟩
  exact ((C9_guard_always_released ⟨false, c8Binding⟩ true "b" none
    (fun _ => some "boom") rfl).1).1

/-! ## Regex passes as explicit scanners

Every `String.prototype.replace(regex, …)` pass of the source is rendered
as a left-to-right scan: at each position the concrete pattern is tried;
on a match the replacement is emitted and scanning resumes after the
matched span (JS global-regex semantics — the replacement is not
rescanned); otherwise the character is kept.  For the patterns of this
code base the regex engine's backtracking never produces a non-maximal
match (each quantified class excludes its follow character), so a
deterministic matcher is exact. -/

/-- JS `\w` (the code base only uses ASCII identifiers). -/
def isWordChar (c : Char) : Bool := c.isAlpha || c.isDigit || c == '_'

/-- JS `[\w-]`. -/
def isWordHyphen (c : Char) : Bool := isWordChar c || c == '-'

/-- One global-replace pass, parameterised by the matcher `tryM` (which
returns the captures and the rest of the input after the span) and the
replacement callback `cb` (which may thread a state, mirroring the
side-effecting callbacks of `processMarkers`).  The scan recurses on a
fuel counter so that it computes by kernel reduction; every matcher used
below consumes at least one character per match, so a fuel of
`l.length + 1` (as supplied by every caller) never runs out. -/
def scanReplace {μ σ : Type} (tryM : List Char → Option (μ × List Char))
    (cb : μ → σ → String × σ) : Nat → List Char → σ → List Char × σ
  | 0, l, st => (l, st)
  | _ + 1, [], st => ([], st)
  | fuel + 1, c :: cs, st =>
    match tryM (c :: cs) with
    | some (m, r) =>
      let p := cb m st
      let q := scanReplace tryM cb fuel r p.2
      (p.1.data ++ q.1, q.2)
    | none =>
      let q := scanReplace tryM cb fuel cs st
      (c :: q.1, q.2)

/-- The sequence of matches found by one global-replace scan (the
positions scanned do not depend on the callback, since a replacement is
never rescanned). -/
def scanMatches {μ : Type} (tryM : List Char → Option (μ × List Char)) :
    Nat → List Char → List μ
  | 0, _ => []
  | _ + 1, [] => []
  | fuel + 1, c :: cs =>
    match tryM (c :: cs) with
    | some (m, r) => m :: scanMatches tryM fuel r
    | none => scanMatches tryM fuel cs

/-- The state threaded through a scan is the fold of the callback over the
match sequence. -/
theorem scanReplace_state {μ σ : Type} (tryM : List Char → Option (μ × List Char))
    (cb : μ → σ → String × σ) :
    ∀ (fuel : Nat) (l : List Char) (st : σ),
      (scanReplace tryM cb fuel l st).2 =
        (scanMatches tryM fuel l).foldl (fun s m => (cb m s).2) st := by
  intro fuel
  induction fuel with
  | zero => intro l st; rfl
  | succ n ih =>
    intro l st
    cases l with
    | nil => rfl
    | cons c cs =>
      cases h : tryM (c :: cs) with
      | none =>
        simp only [scanReplace, scanMatches, h]
        exact ih cs st
      | some mr =>
        obtain ⟨m, r⟩ := mr
        simp only [scanReplace, scanMatches, h, List.foldl_cons]
        exact ih r ((cb m st).2)

/-- The optional `(="[^"]*")?` capture immediately after `\}` (the whole
`="…"` text, quotes included); `none` when the group does not match. -/
def matchAttrSuffix : List Char → Option (String × List Char)
  | '=' :: '"' :: rest4 =>
    match rest4.dropWhile (fun ch => ch ≠ '"') with
    | '"' :: rest5 =>
      some (⟨'=' :: '"' :: (rest4.takeWhile (fun ch => ch ≠ '"') ++ ['"'])⟩, rest5)
    | _ => none
  | _ => none

/-- Matcher for the opening-placeholder pattern
`\$\{([\w-]+)\}(="[^"]*")?` (processMarkers, line 715): returns the key
and the optional `="…"` capture. -/
def matchOpenPH : List Char → Option ((String × Option String) × List Char)
  | '$' :: '\x7b' :: rest =>
    if (rest.takeWhile isWordHyphen).isEmpty then none
    else
      match rest.dropWhile isWordHyphen with
      | '\x7d' :: rest3 =>
        match matchAttrSuffix rest3 with
        | some (attr, rest5) => some ((⟨rest.takeWhile isWordHyphen⟩, some attr), rest5)
        | none => some ((⟨rest.takeWhile isWordHyphen⟩, none), rest3)
      | _ => none
  | _ => none

/-- Matcher for the closing-placeholder pattern `\$\{\/([\w-]+)\}`
(processMarkers line 742, findBlockCommentKeys line 580). -/
def matchClosePH : List Char → Option (String × List Char)
  | '$' :: '\x7b' :: '/' :: rest =>
    if (rest.takeWhile isWordHyphen).isEmpty then none
    else
      match rest.dropWhile isWordHyphen with
      | '\x7d' :: rest3 => some (⟨rest.takeWhile isWordHyphen⟩, rest3)
      | _ => none
  | _ => none

/-- Matcher for the bare pattern `\$\{[\w-]+\}` (the tag-detection strip
in renderTemplate, line 628). -/
def matchOpenBare : List Char → Option (String × List Char)
  | '$' :: '\x7b' :: rest =>
    if (rest.takeWhile isWordHyphen).isEmpty then none
    else
      match rest.dropWhile isWordHyphen with
      | '\x7d' :: rest3 => some (⟨rest.takeWhile isWordHyphen⟩, rest3)
      | _ => none
  | _ => none

theorem takeWhile_dropWhile_length {p : Char → Bool} (l : List Char) :
    (l.takeWhile p).length + (l.dropWhile p).length = l.length := by
  conv_rhs => rw [← List.takeWhile_append_dropWhile (p := p) (l := l)]
  rw [List.length_append]

theorem matchAttrSuffix_shrinks :
    ∀ l a r, matchAttrSuffix l = some (a, r) → r.length < l.length := by
  intro l a r h
  unfold matchAttrSuffix at h
  split at h
  · rename_i rest4
    split at h
    · rename_i rest5 hdrop
      simp only [Option.some.injEq, Prod.mk.injEq] at h
      obtain ⟨h1, h2⟩ := h
      subst h2
      have hlen := takeWhile_dropWhile_length (p := fun ch => ch ≠ '"') rest4
      rw [hdrop] at hlen
      simp only [List.length_cons] at hlen ⊢
      omega
    · exact absurd h (by simp)
  · exact absurd h (by simp)

theorem matchOpenPH_shrinks :
    ∀ l m r, matchOpenPH l = some (m, r) → r.length < l.length := by
  intro l m r h
  unfold matchOpenPH at h
  split at h
  · rename_i rest
    split at h
    · exact absurd h (by simp)
    · rename_i hkey
      have hlen := takeWhile_dropWhile_length (p := isWordHyphen) rest
      have hkpos : 0 < (rest.takeWhile isWordHyphen).length := by
        refine List.length_pos.mpr (fun hnil => ?_)
        exact hkey (by simp [hnil])
      split at h
      · rename_i rest3 hdrop
        rw [hdrop] at hlen
        simp only [List.length_cons] at hlen
        split at h
        · rename_i attr rest5 hattr
          have := matchAttrSuffix_shrinks rest3 attr rest5 hattr
          simp only [Option.some.injEq, Prod.mk.injEq] at h
          obtain ⟨h1, h2⟩ := h
          subst h2
          simp only [List.length_cons]
          omega
        · simp only [Option.some.injEq, Prod.mk.injEq] at h
          obtain ⟨h1, h2⟩ := h
          subst h2
          simp only [List.length_cons]
          omega
      · exact absurd h (by simp)
  · exact absurd h (by simp)

theorem matchClosePH_shrinks :
    ∀ l k r, matchClosePH l = some (k, r) → r.length < l.length := by
  intro l k r h
  unfold matchClosePH at h
  split at h
  · rename_i rest
    split at h
    · exact absurd h (by simp)
    · have hlen := takeWhile_dropWhile_length (p := isWordHyphen) rest
      split at h
      · rename_i rest3 hdrop
        rw [hdrop] at hlen
        simp only [Option.some.injEq, Prod.mk.injEq] at h
        obtain ⟨h1, h2⟩ := h
        subst h2
        simp only [List.length_cons] at hlen ⊢
        omega
      · exact absurd h (by simp)
  · exact absurd h (by simp)

theorem matchOpenBare_shrinks :
    ∀ l k r, matchOpenBare l = some (k, r) → r.length < l.length := by
  intro l k r h
  unfold matchOpenBare at h
  split at h
  · rename_i rest
    split at h
    · exact absurd h (by simp)
    · have hlen := takeWhile_dropWhile_length (p := isWordHyphen) rest
      split at h
      · rename_i rest3 hdrop
        rw [hdrop] at hlen
        simp only [Option.some.injEq, Prod.mk.injEq] at h
        obtain ⟨h1, h2⟩ := h
        subst h2
        simp only [List.length_cons] at hlen ⊢
        omega
      · exact absurd h (by simp)
  · exact absurd h (by simp)

/-! ## Literal string replacement -/

/-- Replace every occurrence of the literal `pat` (leftmost,
non-overlapping), as JS `replace(/pat/g, repl)` does for a literal
pattern. -/
def replaceAllLAux (pat repl : List Char) : Nat → List Char → List Char
  | 0, l => l
  | _ + 1, [] => []
  | fuel + 1, c :: cs =>
    if pat ≠ [] ∧ pat.isPrefixOf (c :: cs) then
      repl ++ replaceAllLAux pat repl fuel ((c :: cs).drop pat.length)
    else
      c :: replaceAllLAux pat repl fuel cs

def replaceAllL (pat repl : List Char) (l : List Char) : List Char :=
  replaceAllLAux pat repl (l.length + 1) l

/-- Replace the first occurrence of the literal `pat`, as JS
`replace(string, string)` does (the marker-restoration loop of
`processMarkers`; no replacement pattern of this code base contains the
special `$`-sequences of JS replacement strings). -/
def replaceFirstL (pat repl : List Char) : List Char → List Char
  | [] => []
  | c :: cs =>
    if pat.isPrefixOf (c :: cs) then
      repl ++ (c :: cs).drop pat.length
    else
      c :: replaceFirstL pat repl cs

/-- `escapeHtml` (interactive-code.element.ts, lines 920-927): five chained
global replaces, ampersand first. -/
def escapeHtml (text : String) : String :=
  ⟨replaceAllL ['\''] "&#39;".data
    (replaceAllL ['"'] "&quot;".data
      (replaceAllL ['>'] "&gt;".data
        (replaceAllL ['<'] "&lt;".data
          (replaceAllL ['&'] "&amp;".data text.data))))⟩

/-! ## `renderBinding` (interactive-code.element.ts, lines 794-870) -/

/-- `renderBinding`: the interactive HTML fragment for one placeholder.
Transcribed template literal by template literal; braces that are text are
written with `\x7b`/`\x7d` escapes. -/
def renderBinding (binding : CodeBinding) (attrValue : Option String) : String :=
  let value := binding.value
  let disabledClass := if binding.disabled then " disabled" else ""
  let tabindex := if binding.disabled then "-1" else "0"
  let escValue := escapeHtml (jsToString (jsNullish value (JSVal.str "")))
  let escKey := escapeHtml binding.key
  match binding.type with
  | .boolean =>
    "<span class=\"inline-control inline-boolean" ++ disabledClass ++
      "\" part=\"interactive\" data-binding=\"" ++ escKey ++
      "\" data-action=\"toggle\" role=\"button\" tabindex=\"" ++ tabindex ++
      "\" aria-label=\"Toggle " ++ escKey ++ ": " ++ escValue ++ "\">" ++
      "<span class=\"token-keyword\">" ++ escValue ++ "</span></span>"
  | .number =>
    "<span class=\"inline-control inline-number" ++ disabledClass ++
      "\" part=\"interactive\" data-binding=\"" ++ escKey ++
      "\" data-action=\"edit-number\" role=\"spinbutton\" tabindex=\"" ++ tabindex ++
      "\" aria-label=\"Edit " ++ escKey ++ "\" aria-valuenow=\"" ++ escValue ++ "\"" ++
      (match binding.min with
       | some m => " aria-valuemin=\"" ++ Int.repr m ++ "\""
       | none => "") ++
      (match binding.max with
       | some m => " aria-valuemax=\"" ++ Int.repr m ++ "\""
       | none => "") ++ ">" ++
      "<span class=\"token-number\">" ++ escValue ++ "</span>" ++
      "<input type=\"number\" class=\"inline-number-input\" id=\"num-" ++ escKey ++
      "\" data-binding=\"" ++ escKey ++ "\" " ++
      "value=\"" ++ escValue ++ "\" " ++
      (match binding.min with
       | some m => "min=\"" ++ Int.repr m ++ "\""
       | none => "") ++ " " ++
      (match binding.max with
       | some m => "max=\"" ++ Int.repr m ++ "\""
       | none => "") ++ " " ++
      (match binding.step with
       | some m => "step=\"" ++ Int.repr m ++ "\""
       | none => "") ++ "></span>"
  | .string =>
    "<span class=\"inline-control inline-string" ++ disabledClass ++
      "\" part=\"interactive\" data-binding=\"" ++ escKey ++
      "\" data-action=\"edit-string\" role=\"textbox\" tabindex=\"" ++ tabindex ++
      "\" aria-label=\"Edit " ++ escKey ++ "\">" ++
      "<span class=\"token-string\">" ++ escValue ++ "</span>" ++
      "<input type=\"text\" class=\"inline-string-input\" id=\"str-" ++ escKey ++
      "\" data-binding=\"" ++ escKey ++ "\" " ++
      "value=\"" ++ escValue ++ "\"></span>"
  | .select =>
    if binding.carousel then
      "<span class=\"inline-control inline-select-carousel" ++ disabledClass ++
        "\" part=\"interactive\" data-binding=\"" ++ escKey ++
        "\" data-action=\"toggle\" role=\"button\" tabindex=\"" ++ tabindex ++
        "\" aria-label=\"Cycle " ++ escKey ++ ": " ++ escValue ++ "\">" ++
        "<span class=\"token-string\">" ++ escValue ++ "</span></span>"
    else if binding.options.length == 2 then
      "<span class=\"inline-control inline-select-toggle" ++ disabledClass ++
        "\" part=\"interactive\" data-binding=\"" ++ escKey ++
        "\" data-action=\"toggle\" role=\"button\" tabindex=\"" ++ tabindex ++
        "\" aria-label=\"Toggle " ++ escKey ++ ": " ++ escValue ++ "\">" ++
        "<span class=\"token-string\">" ++ escValue ++ "</span></span>"
    else
      let optionsHtml := String.join (binding.options.map (fun opt =>
        "<option value=\"" ++ escapeHtml opt ++ "\"" ++
          (if value == JSVal.str opt then " selected" else "") ++ ">" ++
          escapeHtml opt ++ "</option>"))
      "<span class=\"inline-control inline-select-wrapper" ++ disabledClass ++
        "\" part=\"interactive\" data-binding=\"" ++ escKey ++
        "\" data-action=\"edit-select\" role=\"listbox\" tabindex=\"" ++ tabindex ++
        "\" aria-label=\"Select " ++ escKey ++ "\">" ++
        "<span class=\"token-string\">" ++ escValue ++ "</span>" ++
        "<select class=\"inline-select-input\" id=\"sel-" ++ escKey ++
        "\" data-binding=\"" ++ escKey ++ "\">" ++ optionsHtml ++ "</select></span>"
  | .color =>
    let escColor := escapeHtml (jsToString (jsOr value (JSVal.str "#000000")))
    "<span class=\"inline-control inline-color" ++ disabledClass ++
      "\" part=\"interactive\" data-binding=\"" ++ escKey ++
      "\" data-action=\"edit-color\" role=\"button\" tabindex=\"" ++ tabindex ++
      "\" aria-label=\"Pick color " ++ escKey ++ ": " ++ escValue ++ "\">" ++
      "<span class=\"color-preview\" style=\"background:" ++ escColor ++ "\"></span>" ++
      "<span class=\"token-string\">" ++ escValue ++ "</span>" ++
      "<input type=\"color\" id=\"color-" ++ escKey ++ "\" data-binding=\"" ++ escKey ++
      "\" value=\"" ++ escColor ++ "\"></span>"
  | .attr =>
    let isActive := value == JSVal.bool true
    let attrDisplay :=
      match attrValue with
      | some av =>
        "<span class=\"token-attr-name\">" ++ escKey ++
          "</span><span class=\"token-punctuation\">=</span><span class=\"token-attr-value\">" ++
          escapeHtml (jsSliceFrom av 1) ++ "</span>"
      | none => "<span class=\"token-attr-name\">" ++ escKey ++ "</span>"
    "<span class=\"inline-control inline-attribute" ++ disabledClass ++
      (if isActive then "" else " attribute-disabled") ++
      "\" part=\"interactive\" data-binding=\"" ++ escKey ++
      "\" data-action=\"toggle\" role=\"button\" tabindex=\"" ++ tabindex ++
      "\" aria-label=\"Toggle attribute " ++ escKey ++ "\">" ++ attrDisplay ++ "</span>"
  | .readonly =>
    "<span class=\"token-value\">" ++ escValue ++ "</span>"
  | _ => escValue

/-! ## `processMarkers` (interactive-code.element.ts, lines 701-768) -/

/-- JS `Set<string>` add (insertion-ordered, no duplicates). -/
def setAdd (l : List String) (k : String) : List String :=
  if k ∈ l then l else l ++ [k]

/-- JS `Set<string>` delete. -/
def setDelete (l : List String) (k : String) : List String :=
  l.filter (fun x => x ≠ k)

/-- The mutable locals of one `processMarkers` call: `markerIndex`, the
insertion-ordered `markers` map, `blockStartsOnLine`, `blockEndsOnLine`,
plus the caller-shared `openBlockComments` set. -/
structure PMSt where
  markerIndex : Nat
  markers : List (String × String)
  blockStartsOnLine : List String
  blockEndsOnLine : List String
  openBlockComments : List String
deriving Repr

/-- The opaque marker token `__…_i__`. -/
def mkMarker (pre : String) (i : Nat) : String := pre ++ Nat.repr i ++ "__"

/-- The callback of the opening-placeholder pass (lines 715-739). -/
def openCallback (bindings : Bindings) (blockCommentKeys : List String)
    (commentStyle : CommentStyle) (m : String × Option String) (st : PMSt) :
    String × PMSt :=
  let key := m.1
  let attrValue := m.2
  match bindingsGet bindings key with
  | some binding =>
    if binding.type == BindingType.comment && key ∈ blockCommentKeys then
      let marker := mkMarker "__COMMENT_START_" st.markerIndex
      let isEnabled := binding.value == JSVal.bool true
      let toggleClass := if isEnabled then "block-toggle-inactive" else "block-toggle-active"
      let toggleHtml := "<span class=\"block-toggle inline-control " ++ toggleClass ++
        "\" part=\"interactive\" data-binding=\"" ++ key ++
        "\" data-action=\"toggle\" role=\"button\" tabindex=\"0\" aria-label=\"Toggle block comment " ++
        key ++ "\">" ++ commentStyle.blockIndicator ++ "</span>"
      let stored := if isEnabled then toggleHtml else toggleHtml ++ " "
      (marker,
        { st with
          markerIndex := st.markerIndex + 1,
          markers := st.markers ++ [(marker, stored)],
          blockStartsOnLine := st.blockStartsOnLine ++ [key],
          openBlockComments := setAdd st.openBlockComments key })
    else
      let marker := mkMarker "__BINDING_" st.markerIndex
      (marker,
        { st with
          markerIndex := st.markerIndex + 1,
          markers := st.markers ++ [(marker, renderBinding binding attrValue)] })
  | none =>
    let marker := mkMarker "__BINDING_" st.markerIndex
    (marker,
      { st with
        markerIndex := st.markerIndex + 1,
        markers := st.markers ++
          [(marker, "<span class=\"token-unknown\">$\x7b" ++ key ++ "\x7d</span>")] })

/-- The callback of the closing-placeholder pass (lines 742-757).  Note the
truthiness test on `commentStyle.blockEndIndicator`: for shell it is the
empty string, which is falsy, so the unknown-token branch is taken. -/
def closeCallback (bindings : Bindings) (commentStyle : CommentStyle)
    (key : String) (st : PMSt) : String × PMSt :=
  match bindingsGet bindings key with
  | some binding =>
    if binding.type == BindingType.comment && commentStyle.blockEndIndicator ≠ "" then
      let marker := mkMarker "__COMMENT_END_" st.markerIndex
      let isEnabled := binding.value == JSVal.bool true
      let toggleClass := if isEnabled then "block-toggle-inactive" else "block-toggle-active"
      let endHtml := "<span class=\"block-end " ++ toggleClass ++ "\">" ++
        commentStyle.blockEndIndicator ++ "</span>"
      (marker,
        { st with
          markerIndex := st.markerIndex + 1,
          markers := st.markers ++ [(marker, (if isEnabled then "" else " ") ++ endHtml)],
          blockEndsOnLine := st.blockEndsOnLine ++ [key],
          openBlockComments := setDelete st.openBlockComments key })
    else
      let marker := mkMarker "__BINDING_" st.markerIndex
      (marker,
        { st with
          markerIndex := st.markerIndex + 1,
          markers := st.markers ++
            [(marker, "<span class=\"token-unknown\">$\x7b/" ++ key ++ "\x7d</span>")] })
  | none =>
    let marker := mkMarker "__BINDING_" st.markerIndex
    (marker,
      { st with
        markerIndex := st.markerIndex + 1,
        markers := st.markers ++
          [(marker, "<span class=\"token-unknown\">$\x7b/" ++ key ++ "\x7d</span>")] })

/-- The opening-placeholder substitution pass (the first
`content.replace(…)` of `processMarkers`). -/
def substOpen (bindings : Bindings) (blockCommentKeys : List String)
    (commentStyle : CommentStyle) (l : List Char) (st : PMSt) : List Char × PMSt :=
  scanReplace matchOpenPH
    (openCallback bindings blockCommentKeys commentStyle) (l.length + 1) l st

/-- The closing-placeholder substitution pass (the second
`processed.replace(…)` of `processMarkers`). -/
def substClose (bindings : Bindings) (commentStyle : CommentStyle)
    (l : List Char) (st : PMSt) : List Char × PMSt :=
  scanReplace matchClosePH
    (closeCallback bindings commentStyle) (l.length + 1) l st

/-- The restoration loop (lines 763-765): one first-occurrence replacement
per stored marker, in insertion order. -/
def restoreMarkers (s : List Char) (markers : List (String × String)) : List Char :=
  markers.foldl (fun acc mh => replaceFirstL mh.1.data mh.2.data acc) s

/-! ## The lexical highlighters (interactive-code.element.ts, lines 907-1018)

Each regex pass becomes a scanner.  Passes anchored with `/gm` and `^`/`$`
are applied per line (`perLine`); the others scan the whole text.  In every
pattern of the source, each quantified character class excludes the
character that must follow it, so the deterministic maximal-munch scanners
below coincide with the backtracking regex engine. -/

/-- `<span class="cls">content</span>`. -/
def tokenSpan (cls : String) (content : List Char) : List Char :=
  ("<span class=\"" ++ cls ++ "\">").data ++ content ++ "</span>".data

/-- Apply a per-line pass, as a `/gm` regex with `^`/`$` anchors does. -/
def perLine (f : List Char → List Char) (l : List Char) : List Char :=
  List.intercalate ['\n'] ((l.splitOn '\n').map f)

/-- Scan for the closing delimiter of a lazy `.*?`/`[\s\S]*?` group:
returns the (shortest) middle and the rest after the closer.  With
`allowNl := false` the middle may not cross a newline (JS `.`). -/
def findCloseGen (closer : List Char) (allowNl : Bool) : List Char → Option (List Char × List Char)
  | [] => none
  | c :: cs =>
    if closer.isPrefixOf (c :: cs) then some ([], (c :: cs).drop closer.length)
    else if !allowNl && c = '\n' then none
    else
      match findCloseGen closer allowNl cs with
      | some (mid, rest) => some (c :: mid, rest)
      | none => none

theorem findCloseGen_length (closer : List Char) (allowNl : Bool) :
    ∀ l mid rest, findCloseGen closer allowNl l = some (mid, rest) →
      mid.length + closer.length + rest.length = l.length := by
  intro l
  induction l with
  | nil => intro mid rest h; simp [findCloseGen] at h
  | cons c cs ih =>
    intro mid rest h
    unfold findCloseGen at h
    split at h
    · rename_i hpre
      simp only [Option.some.injEq, Prod.mk.injEq] at h
      obtain ⟨h1, h2⟩ := h
      subst h1; subst h2
      have hle : closer.length ≤ (c :: cs).length := List.IsPrefix.length_le
        (List.isPrefixOf_iff_prefix.mp hpre)
      simp only [List.length_nil, List.length_drop]
      omega
    · split at h
      · exact absurd h (by simp)
      · match hrec : findCloseGen closer allowNl cs, h with
        | some (mid', rest'), h =>
          simp only [Option.some.injEq, Prod.mk.injEq] at h
          obtain ⟨h1, h2⟩ := h
          subst h1; subst h2
          have := ih mid' rest' hrec
          simp only [List.length_cons]
          omega

/-- One pass wrapping `opener …lazy… closer` spans in a `tokenSpan`, as
the comment and quoted-string patterns of the source do. -/
def delimitedPassAux (opener closer : List Char) (cls : String) (allowNl : Bool) :
    Nat → List Char → List Char
  | 0, l => l
  | _ + 1, [] => []
  | fuel + 1, c :: cs =>
    if opener ≠ [] ∧ closer ≠ [] ∧ opener.isPrefixOf (c :: cs) then
      match findCloseGen closer allowNl ((c :: cs).drop opener.length) with
      | some (mid, rest) =>
        tokenSpan cls (opener ++ mid ++ closer) ++
          delimitedPassAux opener closer cls allowNl fuel rest
      | none => c :: delimitedPassAux opener closer cls allowNl fuel cs
    else c :: delimitedPassAux opener closer cls allowNl fuel cs

def delimitedPass (opener closer : List Char) (cls : String) (allowNl : Bool)
    (l : List Char) : List Char :=
  delimitedPassAux opener closer cls allowNl (l.length + 1) l

/-- One pass wrapping single characters of a class, e.g. `([{},])`. -/
def charClassPass (cls : String) (chars : List Char) : List Char → List Char
  | [] => []
  | c :: cs =>
    if c ∈ chars then tokenSpan cls [c] ++ charClassPass cls chars cs
    else c :: charClassPass cls chars cs

/-! ### `highlightShell` (lines 1009-1018) -/

/-- `/(#.*)$/gm` on one line: the leftmost `#` anchors the match, which
runs to the end of the line. -/
def shellCommentLine (line : List Char) : List Char :=
  match line.dropWhile (fun c => c ≠ '#') with
  | [] => line
  | rest => line.takeWhile (fun c => c ≠ '#') ++ tokenSpan "token-comment" rest

/-- `/^(\s*)(\w+)/gm` on one line: leading whitespace, then the command
word. -/
def shellCommandLine (line : List Char) : List Char :=
  let ws := line.takeWhile Char.isWhitespace
  let rest := line.drop ws.length
  let word := rest.takeWhile isWordChar
  if word.isEmpty then line
  else ws ++ tokenSpan "token-function" word ++ rest.drop word.length

/-- `/(\s)(--?[\w-]+)/g`: a whitespace character followed by a dash-led
run of at least two `[\w-]` characters (`--?` then `[\w-]+`, which the
backtracking engine accepts exactly when the maximal dash-led run has
length ≥ 2). -/
def shellFlagPassAux : Nat → List Char → List Char
  | 0, l => l
  | _ + 1, [] => []
  | fuel + 1, c :: cs =>
    if c.isWhitespace ∧ cs.head? = some '-' ∧ 2 ≤ (cs.takeWhile isWordHyphen).length then
      c :: tokenSpan "token-variable" (cs.takeWhile isWordHyphen) ++
        shellFlagPassAux fuel (cs.drop (cs.takeWhile isWordHyphen).length)
    else c :: shellFlagPassAux fuel cs

def shellFlagPass (l : List Char) : List Char := shellFlagPassAux (l.length + 1) l

/-- The package-name class (at-sign, word characters, slash, dash). -/
def isPkgChar (c : Char) : Bool := c == '@' || isWordChar c || c == '/' || c == '-'

/-- `install` / `add`, in the alternation order of the source. -/
def tryInstallAdd (l : List Char) : Option (List Char × List Char) :=
  if "install".data.isPrefixOf l then some ("install".data, l.drop 7)
  else if "add".data.isPrefixOf l then some ("add".data, l.drop 3)
  else none

/-- The `install`/`add` package-name pass (line 1016): the literal word,
at least one whitespace character, then a maximal run of `isPkgChar`. -/
def shellInstallPassAux : Nat → List Char → List Char
  | 0, l => l
  | _ + 1, [] => []
  | fuel + 1, c :: cs =>
    match tryInstallAdd (c :: cs) with
    | some (word, rest1) =>
      if ¬(rest1.takeWhile Char.isWhitespace).isEmpty then
        if ¬((rest1.drop (rest1.takeWhile Char.isWhitespace).length).takeWhile isPkgChar).isEmpty then
          word ++ rest1.takeWhile Char.isWhitespace ++
            tokenSpan "token-string"
              ((rest1.drop (rest1.takeWhile Char.isWhitespace).length).takeWhile isPkgChar) ++
            shellInstallPassAux fuel
              ((rest1.drop (rest1.takeWhile Char.isWhitespace).length).drop
                ((rest1.drop (rest1.takeWhile Char.isWhitespace).length).takeWhile isPkgChar).length)
        else c :: shellInstallPassAux fuel cs
      else c :: shellInstallPassAux fuel cs
    | none => c :: shellInstallPassAux fuel cs

def shellInstallPass (l : List Char) : List Char := shellInstallPassAux (l.length + 1) l

/-- `highlightShell` (lines 1009-1018): escape, then the six passes in
source order. -/
def highlightShell (text : String) : String :=
  let r := (escapeHtml text).data
  let r := perLine shellCommentLine r
  let r := perLine shellCommandLine r
  let r := shellFlagPass r
  let r := delimitedPass "&#39;".data "&#39;".data "token-string" false r
  let r := delimitedPass "&quot;".data "&quot;".data "token-string" false r
  let r := shellInstallPass r
  ⟨r⟩

/-! ### `highlightScss` (lines 947-960) -/

/-- The `//` line-comment pass on one line: everything from the leftmost
`//` is wrapped. -/
def lineCommentLine (line : List Char) : List Char :=
  match hm : line with
  | [] => []
  | c :: cs =>
    if ['/', '/'].isPrefixOf (c :: cs) then tokenSpan "token-comment" (c :: cs)
    else c :: lineCommentLine cs

/-- The sigil-led run pass for `(@[\w-]+)` and `(\$[\w-]+)`. -/
def sigilRunPassAux (sigil : Char) (cls : String) : Nat → List Char → List Char
  | 0, l => l
  | _ + 1, [] => []
  | fuel + 1, c :: cs =>
    if c = sigil ∧ ¬(cs.takeWhile isWordHyphen).isEmpty then
      tokenSpan cls (c :: cs.takeWhile isWordHyphen) ++
        sigilRunPassAux sigil cls fuel (cs.drop (cs.takeWhile isWordHyphen).length)
    else c :: sigilRunPassAux sigil cls fuel cs

def sigilRunPass (sigil : Char) (cls : String) (l : List Char) : List Char :=
  sigilRunPassAux sigil cls (l.length + 1) l

/-- `([\w-]+)(\()`: a maximal `[\w-]` run directly followed by an opening
parenthesis. -/
def scssFunctionPassAux : Nat → List Char → List Char
  | 0, l => l
  | _ + 1, [] => []
  | fuel + 1, c :: cs =>
    if isWordHyphen c ∧
        ((c :: cs).drop ((c :: cs).takeWhile isWordHyphen).length).head? = some '(' then
      tokenSpan "token-function" ((c :: cs).takeWhile isWordHyphen) ++
        tokenSpan "token-punctuation" ['('] ++
        scssFunctionPassAux fuel
          (((c :: cs).drop ((c :: cs).takeWhile isWordHyphen).length).drop 1)
    else c :: scssFunctionPassAux fuel cs

def scssFunctionPass (l : List Char) : List Char := scssFunctionPassAux (l.length + 1) l

/-- The negative lookahead `(?![^<]*<\/span>)`: true when the lookahead
pattern matches, i.e. the text up to the first `<` is followed by
`</span>`. -/
def lookaheadCloseSpan (l : List Char) : Bool :=
  "</span>".data.isPrefixOf (l.dropWhile (fun c => c ≠ '<'))

/-- `([\w-]+)(\s*:)(?![^<]*<\/span>)`: a property name, optional blanks
and a colon, provided the lookahead rejects. -/
def scssPropertyPassAux : Nat → List Char → List Char
  | 0, l => l
  | _ + 1, [] => []
  | fuel + 1, c :: cs =>
    if isWordHyphen c ∧
        (((c :: cs).drop ((c :: cs).takeWhile isWordHyphen).length).drop
          (((c :: cs).drop ((c :: cs).takeWhile isWordHyphen).length).takeWhile
            Char.isWhitespace).length).head? = some ':' ∧
        ¬lookaheadCloseSpan
          ((((c :: cs).drop ((c :: cs).takeWhile isWordHyphen).length).drop
            (((c :: cs).drop ((c :: cs).takeWhile isWordHyphen).length).takeWhile
              Char.isWhitespace).length).drop 1) then
      tokenSpan "token-property" ((c :: cs).takeWhile isWordHyphen) ++
        tokenSpan "token-punctuation"
          ((((c :: cs).drop ((c :: cs).takeWhile isWordHyphen).length).takeWhile
            Char.isWhitespace) ++ [':']) ++
        scssPropertyPassAux fuel
          ((((c :: cs).drop ((c :: cs).takeWhile isWordHyphen).length).drop
            (((c :: cs).drop ((c :: cs).takeWhile isWordHyphen).length).takeWhile
              Char.isWhitespace).length).drop 1)
    else c :: scssPropertyPassAux fuel cs

def scssPropertyPass (l : List Char) : List Char := scssPropertyPassAux (l.length + 1) l

/-- `(\d+(?:\.\d+)?)` then a unit, for the scss numeric pass. -/
def tryUnit (l : List Char) : Option (List Char × List Char) :=
  if "px".data.isPrefixOf l then some ("px".data, l.drop 2)
  else if "em".data.isPrefixOf l then some ("em".data, l.drop 2)
  else if "rem".data.isPrefixOf l then some ("rem".data, l.drop 3)
  else if "%".data.isPrefixOf l then some ("%".data, l.drop 1)
  else none

/-- The optional fraction `(?:\.\d+)?` after the integer digits. -/
def tryFraction (l : List Char) : List Char × List Char :=
  match l with
  | '.' :: r =>
    if (r.takeWhile Char.isDigit).isEmpty then ([], l)
    else ('.' :: r.takeWhile Char.isDigit, r.drop (r.takeWhile Char.isDigit).length)
  | _ => ([], l)

theorem tryFraction_length (l : List Char) : (tryFraction l).2.length ≤ l.length := by
  unfold tryFraction
  split
  · split
    · simp
    · simp only [List.length_drop, List.length_cons]
      omega
  · simp

/-- `(\d+(?:\.\d+)?)(px|em|rem|%)`: number plus unit, wrapped in a single
number span (`$1$2`). -/
def scssNumberPassAux : Nat → List Char → List Char
  | 0, l => l
  | _ + 1, [] => []
  | fuel + 1, c :: cs =>
    if c.isDigit then
      match tryUnit (tryFraction ((c :: cs).drop
          ((c :: cs).takeWhile Char.isDigit).length)).2 with
      | some (u, rest3) =>
        tokenSpan "token-number"
          ((c :: cs).takeWhile Char.isDigit ++
            (tryFraction ((c :: cs).drop ((c :: cs).takeWhile Char.isDigit).length)).1 ++ u) ++
          scssNumberPassAux fuel rest3
      | none => c :: scssNumberPassAux fuel cs
    else c :: scssNumberPassAux fuel cs

def scssNumberPass (l : List Char) : List Char := scssNumberPassAux (l.length + 1) l

/-- `highlightScss` (lines 947-960): escape, then the ten passes in source
order. -/
def highlightScss (text : String) : String :=
  let r := (escapeHtml text).data
  let r := perLine lineCommentLine r
  let r := delimitedPass "/*".data "*/".data "token-comment" true r
  let r := sigilRunPass '@' "token-keyword" r
  let r := sigilRunPass '$' "token-variable" r
  let r := delimitedPass "&#39;".data "&#39;".data "token-string" false r
  let r := scssFunctionPass r
  let r := scssPropertyPass r
  let r := charClassPass "token-punctuation" [')'] r
  let r := charClassPass "token-punctuation" ['\x7b', '\x7d', ','] r
  let r := scssNumberPass r
  ⟨r⟩

/-! ### `highlightHtml` (lines 929-945) -/

/-- `(&lt;\/?)([\w-]+)`: an escaped angle bracket, an optional slash, and
a tag-name run, all wrapped in one tag span (`$1$2`). -/
def htmlTagOpenPassAux : Nat → List Char → List Char
  | 0, l => l
  | _ + 1, [] => []
  | fuel + 1, c :: cs =>
    if "&lt;/".data.isPrefixOf (c :: cs) ∧
        ¬(((c :: cs).drop 5).takeWhile isWordHyphen).isEmpty then
      tokenSpan "token-tag" ("&lt;/".data ++ ((c :: cs).drop 5).takeWhile isWordHyphen) ++
        htmlTagOpenPassAux fuel
          (((c :: cs).drop 5).drop (((c :: cs).drop 5).takeWhile isWordHyphen).length)
    else if "&lt;".data.isPrefixOf (c :: cs) ∧
        ¬(((c :: cs).drop 4).takeWhile isWordHyphen).isEmpty then
      tokenSpan "token-tag" ("&lt;".data ++ ((c :: cs).drop 4).takeWhile isWordHyphen) ++
        htmlTagOpenPassAux fuel
          (((c :: cs).drop 4).drop (((c :: cs).drop 4).takeWhile isWordHyphen).length)
    else c :: htmlTagOpenPassAux fuel cs

def htmlTagOpenPass (l : List Char) : List Char := htmlTagOpenPassAux (l.length + 1) l

/-- `(\/?&gt;)`: a closing angle entity with an optional leading slash
(the greedy `\/?` prefers the slash). -/
def htmlTagEndPassAux : Nat → List Char → List Char
  | 0, l => l
  | _ + 1, [] => []
  | fuel + 1, c :: cs =>
    if "/&gt;".data.isPrefixOf (c :: cs) then
      tokenSpan "token-tag" "/&gt;".data ++ htmlTagEndPassAux fuel ((c :: cs).drop 5)
    else if "&gt;".data.isPrefixOf (c :: cs) then
      tokenSpan "token-tag" "&gt;".data ++ htmlTagEndPassAux fuel ((c :: cs).drop 4)
    else c :: htmlTagEndPassAux fuel cs

def htmlTagEndPass (l : List Char) : List Char := htmlTagEndPassAux (l.length + 1) l

/-- `(key)(=)(&quot;)(.*?)(&quot;)`: the binding-declaration `key`
attribute, with the value specially emphasised. -/
def htmlKeyAttrPassAux : Nat → List Char → List Char
  | 0, l => l
  | _ + 1, [] => []
  | fuel + 1, c :: cs =>
    if "key=&quot;".data.isPrefixOf (c :: cs) then
      match findCloseGen "&quot;".data false ((c :: cs).drop 10) with
      | some (mid, rest) =>
        ("<span class=\"token-attr-name\">key</span>" ++
          "<span class=\"token-punctuation\">=</span>" ++
          "<span class=\"token-attr-value\">&quot;</span>" ++
          "<span class=\"token-binding-key\">").data ++ mid ++
          "</span><span class=\"token-attr-value\">&quot;</span>".data ++
          htmlKeyAttrPassAux fuel rest
      | none => c :: htmlKeyAttrPassAux fuel cs
    else c :: htmlKeyAttrPassAux fuel cs

def htmlKeyAttrPass (l : List Char) : List Char := htmlKeyAttrPassAux (l.length + 1) l

/-- `[\w.-]`, the attribute-name class of the generic attribute pass. -/
def isAttrNameChar (c : Char) : Bool := isWordChar c || c == '.' || c == '-'

/-- The alternation `(\[[\w.-]+\]|\([\w.-]+\)|[\w-]+)`.  At a fixed
position at most one alternative can start, so trying them in source
order is exact. -/
def tryAttrName : List Char → Option (List Char × List Char)
  | '[' :: r =>
    if ¬(r.takeWhile isAttrNameChar).isEmpty ∧
        (r.drop (r.takeWhile isAttrNameChar).length).head? = some ']' then
      some (('[' :: r.takeWhile isAttrNameChar) ++ [']'],
        (r.drop (r.takeWhile isAttrNameChar).length).drop 1)
    else none
  | '(' :: r =>
    if ¬(r.takeWhile isAttrNameChar).isEmpty ∧
        (r.drop (r.takeWhile isAttrNameChar).length).head? = some ')' then
      some (('(' :: r.takeWhile isAttrNameChar) ++ [')'],
        (r.drop (r.takeWhile isAttrNameChar).length).drop 1)
    else none
  | l =>
    if (l.takeWhile isWordHyphen).isEmpty then none
    else some (l.takeWhile isWordHyphen, l.drop (l.takeWhile isWordHyphen).length)

theorem tryAttrName_shrinks :
    ∀ l n r, tryAttrName l = some (n, r) → n ≠ [] ∧ n.length + r.length ≤ l.length := by
  intro l n r h
  unfold tryAttrName at h
  split at h
  · rename_i r'
    split at h
    · rename_i hcond
      simp only [Option.some.injEq, Prod.mk.injEq] at h
      obtain ⟨h1, h2⟩ := h
      subst h1; subst h2
      have hlen := takeWhile_dropWhile_length (p := isAttrNameChar) r'
      have hdw : (r'.dropWhile isAttrNameChar).length =
          (r'.drop (r'.takeWhile isAttrNameChar).length).length := by
        simp [List.length_drop]
        omega
      have hhead : (r'.drop (r'.takeWhile isAttrNameChar).length).length ≥ 1 := by
        cases hx : r'.drop (r'.takeWhile isAttrNameChar).length with
        | nil => rw [hx] at hcond; simp at hcond
        | cons a as => simp [hx]
      constructor
      · simp
      · simp only [List.length_append, List.length_cons, List.length_drop,
          List.length_nil] at *
        omega
    · simp at h
  · rename_i r'
    split at h
    · rename_i hcond
      simp only [Option.some.injEq, Prod.mk.injEq] at h
      obtain ⟨h1, h2⟩ := h
      subst h1; subst h2
      have hlen := takeWhile_dropWhile_length (p := isAttrNameChar) r'
      have hhead : (r'.drop (r'.takeWhile isAttrNameChar).length).length ≥ 1 := by
        cases hx : r'.drop (r'.takeWhile isAttrNameChar).length with
        | nil => rw [hx] at hcond; simp at hcond
        | cons a as => simp [hx]
      constructor
      · simp
      · simp only [List.length_append, List.length_cons, List.length_drop,
          List.length_nil] at *
        omega
    · simp at h
  · rename_i hne1 hne2
    split at h
    · simp at h
    · rename_i hcond
      simp only [Option.some.injEq, Prod.mk.injEq] at h
      obtain ⟨h1, h2⟩ := h
      subst h1; subst h2
      have hlen := takeWhile_dropWhile_length (p := isWordHyphen) l
      constructor
      · intro hnil
        rw [hnil] at hcond
        simp at hcond
      · simp only [List.length_drop] at *
        omega

/-- `([\w-]+)(=)(&quot;.*?&quot;)`: the generic `name="value"` attribute
pass (the attribute name may also be an Angular-style `[prop]`/`(event)`
form). -/
def htmlAttrPassAux : Nat → List Char → List Char
  | 0, l => l
  | _ + 1, [] => []
  | fuel + 1, c :: cs =>
    match tryAttrName (c :: cs) with
    | some (name, rest1) =>
      if "=&quot;".data.isPrefixOf rest1 then
        match findCloseGen "&quot;".data false (rest1.drop 7) with
        | some (mid, rest) =>
          tokenSpan "token-attr-name" name ++ tokenSpan "token-punctuation" ['='] ++
            tokenSpan "token-attr-value" ("&quot;".data ++ mid ++ "&quot;".data) ++
            htmlAttrPassAux fuel rest
        | none => c :: htmlAttrPassAux fuel cs
      else c :: htmlAttrPassAux fuel cs
    | none => c :: htmlAttrPassAux fuel cs

def htmlAttrPass (l : List Char) : List Char := htmlAttrPassAux (l.length + 1) l

/-- `highlightHtml` (lines 929-945): escape, then comments, tag names,
tag ends, the `key` attribute, and generic attributes, in source order. -/
def highlightHtml (text : String) : String :=
  let r := (escapeHtml text).data
  let r := delimitedPass "&lt;!--".data "--&gt;".data "token-comment" true r
  let r := htmlTagOpenPass r
  let r := htmlTagEndPass r
  let r := htmlKeyAttrPass r
  let r := htmlAttrPass r
  ⟨r⟩

/-! ### `highlightTypeScript` (lines 962-1007) -/

/-- The backquote character (code point 96). -/
def btChar : Char := Char.ofNat 96

/-- The single-quote character (code point 39). -/
def sqChar : Char := Char.ofNat 39

/-- The body-and-close walk of a quoted-string literal: the pattern body
is zero or more of (a char that is neither the quote nor a backslash, or
a backslash followed by any non-newline char), then the closing quote.
Each step is forced (the quote and the backslash are excluded from the
plain alternative), so the greedy star needs no backtracking.  Returns
the consumed span (closing quote included) and the rest. -/
def escStringEnd (q : Char) : List Char → Option (List Char × List Char)
  | [] => none
  | c :: cs =>
    if c = q then some ([c], cs)
    else if c = '\\' then
      match cs with
      | [] => none
      | d :: ds =>
        if d = '\n' then none
        else
          match escStringEnd q ds with
          | some (body, rest) => some (c :: d :: body, rest)
          | none => none
    else
      match escStringEnd q cs with
      | some (body, rest) => some (c :: body, rest)
      | none => none

theorem escStringEnd_length_aux (q : Char) :
    ∀ n l body rest, l.length ≤ n → escStringEnd q l = some (body, rest) →
      body.length + rest.length = l.length ∧ 1 ≤ body.length := by
  intro n
  induction n with
  | zero =>
    intro l body rest hlen h
    cases l with
    | nil => simp [escStringEnd] at h
    | cons c cs => simp at hlen
  | succ n ih =>
    intro l body rest hlen h
    cases l with
    | nil => simp [escStringEnd] at h
    | cons c cs =>
      rw [escStringEnd.eq_def] at h
      dsimp only at h
      split at h
      · simp only [Option.some.injEq, Prod.mk.injEq] at h
        obtain ⟨h1, h2⟩ := h
        subst h1; subst h2
        simp only [List.length_cons, List.length_nil]
        omega
      · split at h
        · cases cs with
          | nil => simp at h
          | cons d ds =>
            dsimp only at h
            split at h
            · simp at h
            · split at h
              · rename_i body' rest' hrec
                simp only [Option.some.injEq, Prod.mk.injEq] at h
                obtain ⟨h1, h2⟩ := h
                subst h1; subst h2
                have hds : ds.length ≤ n := by
                  simp only [List.length_cons] at hlen
                  omega
                have hr := ih ds body' rest' hds hrec
                simp only [List.length_cons]
                omega
              · simp at h
        · split at h
          · rename_i body' rest' hrec
            simp only [Option.some.injEq, Prod.mk.injEq] at h
            obtain ⟨h1, h2⟩ := h
            subst h1; subst h2
            have hcs : cs.length ≤ n := by
              simp only [List.length_cons] at hlen
              omega
            have hr := ih cs body' rest' hcs hrec
            simp only [List.length_cons]
            omega
          · simp at h

theorem escStringEnd_length (q : Char) (l body rest : List Char)
    (h : escStringEnd q l = some (body, rest)) :
    body.length + rest.length = l.length ∧ 1 ≤ body.length :=
  escStringEnd_length_aux q l.length l body rest (Nat.le_refl _) h

/-- Matcher for a quoted literal (regexes of the shape
`q([^q backslash]|backslash nonNewline)*q`): an opening quote `q`, then
the forced body-and-close walk.  Returns the whole matched span. -/
def matchQuoted (q : Char) (l : List Char) : Option (List Char × List Char) :=
  match l with
  | [] => none
  | c :: cs =>
    if c = q then
      match escStringEnd q cs with
      | some (body, rest) => some (c :: body, rest)
      | none => none
    else none

theorem matchQuoted_shrinks (q : Char) :
    ∀ l m r, matchQuoted q l = some (m, r) → r.length < l.length := by
  intro l m r h
  unfold matchQuoted at h
  split at h
  · simp at h
  · rename_i c cs
    split at h
    · split at h
      · rename_i body' rest' hrec
        simp only [Option.some.injEq, Prod.mk.injEq] at h
        obtain ⟨h1, h2⟩ := h
        subst h1; subst h2
        have := escStringEnd_length q cs body' rest' hrec
        simp only [List.length_cons]
        omega
      · simp at h
    · simp at h

/-- Matcher for a template literal: a backquote, a run of non-backquote
characters (newlines included), and a closing backquote. -/
def matchBT (l : List Char) : Option (List Char × List Char) :=
  match l with
  | [] => none
  | c :: cs =>
    if c = btChar then
      match cs.dropWhile (fun x => x ≠ btChar) with
      | b :: rest => some ((c :: cs.takeWhile (fun x => x ≠ btChar)) ++ [b], rest)
      | [] => none
    else none

theorem matchBT_shrinks :
    ∀ l m r, matchBT l = some (m, r) → r.length < l.length := by
  intro l m r h
  unfold matchBT at h
  split at h
  · simp at h
  · rename_i c cs
    split at h
    · split at h
      · rename_i b rest' hdw
        simp only [Option.some.injEq, Prod.mk.injEq] at h
        obtain ⟨h1, h2⟩ := h
        subst h1; subst h2
        have hlen := takeWhile_dropWhile_length (p := fun x => x ≠ btChar) cs
        have : (cs.dropWhile fun x => x ≠ btChar).length = rest'.length + 1 := by
          rw [hdw]; simp
        simp only [List.length_cons]
        omega
      · simp at h
    · simp at h

/-- The state threaded through the three string-extraction passes
(lines 963-964): the running marker counter and the insertion-ordered
`stringMarkers` map. -/
structure TSSt where
  markerIndex : Nat
  stringMarkers : List (String × String)

/-- The quoted-string callback (lines 966-976): allocate a
`__STRING_n__` marker, record the escaped literal wrapped in a
token-string span, and substitute the marker. -/
def stringCb (matched : List Char) (st : TSSt) : String × TSSt :=
  let marker := mkMarker "__STRING_" st.markerIndex
  (marker,
    { markerIndex := st.markerIndex + 1,
      stringMarkers := st.stringMarkers ++
        [(marker, "<span class=\"token-string\">" ++ escapeHtml ⟨matched⟩ ++ "</span>")] })

/-- `([\w-]+)(=)(&quot;[^&]*&quot;)`, the attribute pass applied inside
template literals (lines 983-984).  The value body excludes `&` and the
closer starts with `&`, so the greedy run is exact. -/
def tsTemplateAttrPassAux : Nat → List Char → List Char
  | 0, l => l
  | _ + 1, [] => []
  | fuel + 1, c :: cs =>
    if ¬((c :: cs).takeWhile isWordHyphen).isEmpty then
      if "=&quot;".data.isPrefixOf ((c :: cs).dropWhile isWordHyphen) then
        if "&quot;".data.isPrefixOf
            ((((c :: cs).dropWhile isWordHyphen).drop 7).dropWhile (fun x => x ≠ '&')) then
          tokenSpan "token-attr-name" ((c :: cs).takeWhile isWordHyphen) ++
            tokenSpan "token-punctuation" ['='] ++
            tokenSpan "token-attr-value"
              ("&quot;".data ++
                ((((c :: cs).dropWhile isWordHyphen).drop 7).takeWhile (fun x => x ≠ '&')) ++
                "&quot;".data) ++
            tsTemplateAttrPassAux fuel
              (((((c :: cs).dropWhile isWordHyphen).drop 7).dropWhile (fun x => x ≠ '&')).drop 6)
        else c :: tsTemplateAttrPassAux fuel cs
      else c :: tsTemplateAttrPassAux fuel cs
    else c :: tsTemplateAttrPassAux fuel cs

def tsTemplateAttrPass (l : List Char) : List Char := tsTemplateAttrPassAux (l.length + 1) l

/-- The template-literal callback (lines 978-987): allocate a marker,
escape the literal, run the tag-open, tag-end and attribute passes on
it, and record it wrapped in a token-template-string span. -/
def templateCb (matched : List Char) (st : TSSt) : String × TSSt :=
  let marker := mkMarker "__STRING_" st.markerIndex
  let inner := (escapeHtml ⟨matched⟩).data
  let inner := htmlTagOpenPass inner
  let inner := htmlTagEndPass inner
  let inner := tsTemplateAttrPass inner
  (marker,
    { markerIndex := st.markerIndex + 1,
      stringMarkers := st.stringMarkers ++
        [(marker, "<span class=\"token-template-string\">" ++ String.mk inner ++ "</span>")] })

/-- `(&#64;\w+)`: an escaped at-sign followed by a word run, wrapped in
a token-decorator span. -/
def tsDecoratorPassAux : Nat → List Char → List Char
  | 0, l => l
  | _ + 1, [] => []
  | fuel + 1, c :: cs =>
    if "&#64;".data.isPrefixOf (c :: cs) ∧
        ¬(((c :: cs).drop 5).takeWhile isWordChar).isEmpty then
      tokenSpan "token-decorator" ("&#64;".data ++ ((c :: cs).drop 5).takeWhile isWordChar) ++
        tsDecoratorPassAux fuel
          (((c :: cs).drop 5).drop (((c :: cs).drop 5).takeWhile isWordChar).length)
    else c :: tsDecoratorPassAux fuel cs

def tsDecoratorPass (l : List Char) : List Char := tsDecoratorPassAux (l.length + 1) l

/-- A literal-word alternation `(w1|w2|...)` tried in list order at one
position; `followOk` is the condition the regex imposes right after the
word (a lookahead or a word boundary).  At most one word of the lists
used here can be a prefix of the input at a time, except for prefixes
appearing later in the list, which JS alternation also tries later. -/
def tryWordAlt (kws : List String) (followOk : List Char → Bool) (l : List Char) :
    Option (List Char × List Char) :=
  match kws with
  | [] => none
  | kw :: rest =>
    if kw.data ≠ [] ∧ kw.data.isPrefixOf l ∧ followOk (l.drop kw.data.length) then
      some (kw.data, l.drop kw.data.length)
    else tryWordAlt rest followOk l

theorem tryWordAlt_shrinks (kws : List String) (followOk : List Char → Bool) :
    ∀ l w r, tryWordAlt kws followOk l = some (w, r) →
      w ≠ [] ∧ w.length + r.length = l.length := by
  induction kws with
  | nil => intro l w r h; simp [tryWordAlt] at h
  | cons kw rest ih =>
    intro l w r h
    rw [tryWordAlt] at h
    split at h
    · rename_i hcond
      simp only [Option.some.injEq, Prod.mk.injEq] at h
      obtain ⟨h1, h2⟩ := h
      subst h1; subst h2
      refine ⟨hcond.1, ?_⟩
      have := (List.isPrefixOf_iff_prefix.mp hcond.2.1).length_le
      simp only [List.length_drop]
      omega
    · exact ih l w r h

/-- The keyword list of line 995, in source order (`async`/`await`
before their prefix `as`). -/
def tsKeywords : List String :=
  ["import", "export", "from", "class", "interface", "type", "const", "let", "var",
   "function", "return", "if", "else", "for", "while", "new", "this", "extends",
   "implements", "public", "private", "protected", "readonly", "static", "async",
   "await", "as"]

/-- The trailing context of the keyword regex: a word boundary and the
`(?!=)` negative lookahead. -/
def kwFollowOk (l : List Char) : Bool :=
  match l with
  | [] => true
  | d :: _ => !(isWordChar d || d == '=')

/-- The keyword pass `\b(import|...|as)\b(?!=)` (lines 995-997).
`prev` is the character of the input just before the scan position
(`none` at the start); every keyword starts and ends with a word
character, so the leading boundary holds iff `prev` is not a word
character. -/
def tsKeywordPassAux : Nat → Option Char → List Char → List Char
  | 0, _, l => l
  | _ + 1, _, [] => []
  | fuel + 1, prev, c :: cs =>
    if (match prev with | none => true | some p => !isWordChar p) then
      match tryWordAlt tsKeywords kwFollowOk (c :: cs) with
      | some (kw, rest) =>
        tokenSpan "token-keyword" kw ++ tsKeywordPassAux fuel (kw.getLast?) rest
      | none => c :: tsKeywordPassAux fuel (some c) cs
    else c :: tsKeywordPassAux fuel (some c) cs

def tsKeywordPass (prev : Option Char) (l : List Char) : List Char :=
  tsKeywordPassAux (l.length + 1) prev l

/-- The type-name class `[\w&lt;&gt;\[\]]` of line 998: word characters
plus the four extra characters of the entity spellings. -/
def isTsTypeChar (c : Char) : Bool :=
  isWordChar c || c == '&' || c == ';' || c == '[' || c == ']'

/-- `(:\s*)([A-Z][\w&lt;&gt;\[\]]+)` (line 998): a colon, optional
whitespace (kept as `$1`), and a capitalised type name of at least two
characters, wrapped in a token-type span. -/
def tsTypeAnnotationPassAux : Nat → List Char → List Char
  | 0, l => l
  | _ + 1, [] => []
  | fuel + 1, c :: cs =>
    if c = ':' then
      if (match (cs.dropWhile Char.isWhitespace) with
          | [] => false
          | hd :: tl => hd.isUpper && !(tl.takeWhile isTsTypeChar).isEmpty) = true then
        match cs.dropWhile Char.isWhitespace with
        | hd :: tl =>
          (c :: cs.takeWhile Char.isWhitespace) ++
            tokenSpan "token-type" (hd :: tl.takeWhile isTsTypeChar) ++
            tsTypeAnnotationPassAux fuel (tl.drop (tl.takeWhile isTsTypeChar).length)
        | [] => c :: tsTypeAnnotationPassAux fuel cs
      else c :: tsTypeAnnotationPassAux fuel cs
    else c :: tsTypeAnnotationPassAux fuel cs

def tsTypeAnnotationPass (l : List Char) : List Char := tsTypeAnnotationPassAux (l.length + 1) l

/-- The alternation of line 999, in source order. -/
def tsClassKws : List String := ["class", "interface", "extends", "implements"]

/-- `(class|interface|extends|implements)(\s+)([A-Z]\w*)` (line 999):
the keyword and whitespace are kept, the capitalised name is wrapped in
a token-class-name span.  No word boundary is required before the
keyword. -/
def tsClassNamePassAux : Nat → List Char → List Char
  | 0, l => l
  | _ + 1, [] => []
  | fuel + 1, c :: cs =>
    match tryWordAlt tsClassKws (fun _ => true) (c :: cs) with
    | some (kw, rest1) =>
      if ¬(rest1.takeWhile Char.isWhitespace).isEmpty then
        if (match rest1.dropWhile Char.isWhitespace with
            | [] => false
            | hd :: _ => hd.isUpper) = true then
          match rest1.dropWhile Char.isWhitespace with
          | hd :: tl =>
            kw ++ rest1.takeWhile Char.isWhitespace ++
              tokenSpan "token-class-name" (hd :: tl.takeWhile isWordChar) ++
              tsClassNamePassAux fuel (tl.drop (tl.takeWhile isWordChar).length)
          | [] => c :: tsClassNamePassAux fuel cs
        else c :: tsClassNamePassAux fuel cs
      else c :: tsClassNamePassAux fuel cs
    | none => c :: tsClassNamePassAux fuel cs

def tsClassNamePass (l : List Char) : List Char := tsClassNamePassAux (l.length + 1) l

/-- `\b(\d+)\b` (line 1000): a maximal digit run with word boundaries on
both sides (`prev` as in the keyword pass). -/
def tsDigitsPassAux : Nat → Option Char → List Char → List Char
  | 0, _, l => l
  | _ + 1, _, [] => []
  | fuel + 1, prev, c :: cs =>
    if ((match prev with | none => true | some p => !isWordChar p) && c.isDigit &&
        (match cs.dropWhile Char.isDigit with
          | [] => true
          | d :: _ => !isWordChar d)) then
      tokenSpan "token-number" (c :: cs.takeWhile Char.isDigit) ++
        tsDigitsPassAux fuel (some c) (cs.dropWhile Char.isDigit)
    else c :: tsDigitsPassAux fuel (some c) cs

def tsDigitsPass (prev : Option Char) (l : List Char) : List Char :=
  tsDigitsPassAux (l.length + 1) prev l

/-- `highlightTypeScript` (lines 962-1007): extract single-quoted,
double-quoted and template literals into `__STRING_n__` markers (one
shared counter), escape, then the comment, decorator, keyword, type,
class-name, number and punctuation passes, and finally restore each
marker by a first-occurrence replacement in insertion order. -/
def highlightTypeScript (text : String) : String :=
  let p1 := scanReplace (matchQuoted sqChar) stringCb
    (text.data.length + 1) text.data ⟨0, []⟩
  let p2 := scanReplace (matchQuoted '"') stringCb (p1.1.length + 1) p1.1 p1.2
  let p3 := scanReplace matchBT templateCb (p2.1.length + 1) p2.1 p2.2
  let r := (escapeHtml ⟨p3.1⟩).data
  let r := perLine lineCommentLine r
  let r := delimitedPass "/*".data "*/".data "token-comment" true r
  let r := tsDecoratorPass r
  let r := tsKeywordPass none r
  let r := tsTypeAnnotationPass r
  let r := tsClassNamePass r
  let r := tsDigitsPass none r
  let r := charClassPass "token-punctuation"
    ['\x7b', '\x7d', '[', ']', '(', ')', '.', ',', ':'] r
  ⟨restoreMarkers r p3.2.stringMarkers⟩

/-! ## The render pipeline (interactive-code.element.ts, lines 563-792) -/

/-- The per-language dispatch of the highlighting step (the source's
private dispatch method, lines 906-918). -/
def highlightDispatch (lang : Language) (text : String) : String :=
  match lang with
  | Language.html => highlightHtml text
  | Language.scss => highlightScss text
  | Language.typescript => highlightTypeScript text
  | Language.shell => highlightShell text

/-- `findBlockCommentKeys` (lines 578-586): collect, in first-occurrence
order, the keys of all `$\x7b/key\x7d` markers in the template. -/
def findBlockCommentKeys (templateContent : String) : List String :=
  (scanMatches matchClosePH (templateContent.data.length + 1)
    templateContent.data).foldl setAdd []

/-- Case-insensitive prefix test, returning the rest on success. -/
def isPrefixCI : List Char → List Char → Option (List Char)
  | [], l => some l
  | _ :: _, [] => none
  | p :: ps, c :: cs => if p.toLower = c.toLower then isPrefixCI ps cs else none

/-- `regex.test`: does `p` hold at some position of the list? -/
def existsPos (p : List Char → Bool) : List Char → Bool
  | [] => p []
  | c :: cs => p (c :: cs) || existsPos p cs

/-- `/<style[\s>]/i.test(line)` (lines 588-590). -/
def isOpeningStyleTag (line : String) : Bool :=
  existsPos (fun l =>
    match isPrefixCI "<style".data l with
    | some (d :: _) => d.isWhitespace || d == '>'
    | _ => false) line.data

/-- `/<\/style>/i.test(line)` (lines 592-594). -/
def isClosingStyleTag (line : String) : Bool :=
  existsPos (fun l => (isPrefixCI "</style>".data l).isSome) line.data

/-- `/<script[\s>]/i.test(line)` (lines 596-598). -/
def isOpeningScriptTag (line : String) : Bool :=
  existsPos (fun l =>
    match isPrefixCI "<script".data l with
    | some (d :: _) => d.isWhitespace || d == '>'
    | _ => false) line.data

/-- `/<\/script>/i.test(line)` (lines 600-602). -/
def isClosingScriptTag (line : String) : Bool :=
  existsPos (fun l => (isPrefixCI "</script>".data l).isSome) line.data

/-- A global-replace pass that deletes every match. -/
def stripPass {μ : Type} (tryM : List Char → Option (μ × List Char))
    (l : List Char) : List Char :=
  (scanReplace tryM (fun _ (_ : Unit) => ("", ())) (l.length + 1) l ()).1

/-- The tag-detection strip of `renderTemplate` (line 628): remove all
`$\x7bkey\x7d` then all `$\x7b/key\x7d` placeholders and trim. -/
def stripForTagDetection (line : String) : String :=
  jsTrim ⟨stripPass matchClosePH (stripPass matchOpenBare line.data)⟩

/-- `processMarkers` (lines 701-768): the opening-placeholder pass, the
closing-placeholder pass, highlighting of the protected text, and the
first-occurrence restoration of each marker in insertion order.  The
returned state carries `blockStartsOnLine`, `blockEndsOnLine` and the
updated `openBlockComments` set. -/
def processMarkers (bindings : Bindings) (commentStyle : CommentStyle)
    (blockCommentKeys : List String) (openBlockComments : List String)
    (lang : Language) (content : String) : String × PMSt :=
  let st0 : PMSt := ⟨0, [], [], [], openBlockComments⟩
  let p1 := substOpen bindings blockCommentKeys commentStyle content.data st0
  let p2 := substClose bindings commentStyle p1.1 p1.2
  let hl := (highlightDispatch lang ⟨p2.1⟩).data
  (⟨restoreMarkers hl p2.2.markers⟩, p2.2)

/-- Is the binding of `key` present with value strictly equal to `false`?
(`this.bindings.get(key)?.value === false`). -/
def bindingFalse (bindings : Bindings) (key : String) : Bool :=
  match bindingsGet bindings key with
  | some b => b.value == JSVal.bool false
  | none => false

/-- `buildLineHtml` (lines 771-792).  `lineToggle` carries the key and
binding of a detected line toggle; `declared` is the component's declared
language (used for the HTML closing-comment suffix). -/
def buildLineHtml (declared : Language) (commentStyle : CommentStyle)
    (indent : String) (processedContent : String)
    (lineToggle : Option (String × CodeBinding)) (shouldGrayLine : Bool)
    (lineNumber : Nat) : String :=
  let lineNumHtml :=
    if lineNumber > 0 then
      "<span class=\"line-number\">" ++ Nat.repr lineNumber ++ "</span>"
    else ""
  match lineToggle with
  | some (key, binding) =>
    let isEnabled := binding.value == JSVal.bool true
    let toggleClass := if isEnabled then "line-toggle-inactive" else "line-toggle-active"
    let toggleHtml := "<span class=\"line-toggle inline-control " ++ toggleClass ++
      "\" part=\"interactive\" data-binding=\"" ++ key ++
      "\" data-action=\"toggle\" role=\"button\" tabindex=\"0\" aria-label=\"Toggle line comment " ++
      key ++ "\">" ++ commentStyle.lineIndicator ++ "</span>"
    let commentSuffix :=
      if declared == Language.html && !isEnabled then
        "<span class=\"token-comment\">" ++ commentStyle.blockEnd ++ "</span>"
      else ""
    "<span class=\"code-line" ++ (if isEnabled then "" else " line-disabled") ++ "\">" ++
      lineNumHtml ++ "<span class=\"indent\">" ++ indent ++ "</span>" ++ toggleHtml ++
      processedContent ++ commentSuffix ++ "</span>"
  | none =>
    if shouldGrayLine then
      "<span class=\"code-line line-disabled\">" ++ lineNumHtml ++
        "<span class=\"indent\">" ++ indent ++ "</span>" ++ processedContent ++ "</span>"
    else
      "<span class=\"code-line\">" ++ lineNumHtml ++
        "<span class=\"indent\">" ++ indent ++ "</span>" ++ processedContent ++ "</span>"

/-- `renderLine` (lines 659-699): split off the indent, detect a
line-toggle comment binding at the start (only when its key has no block
end marker anywhere in the template), check whether the line sits inside
an open commented block, run `processMarkers`, decide graying, and build
the line HTML.  Returns the HTML and the updated `openBlockComments`. -/
def renderLine (bindings : Bindings) (declared : Language) (line : String)
    (commentStyle : CommentStyle) (blockCommentKeys : List String)
    (openBlockComments : List String) (lineNumber : Nat)
    (effectiveLanguage : Language) : String × List String :=
  let indent : List Char := line.data.takeWhile Char.isWhitespace
  let content0 : List Char := line.data.drop indent.length
  let lt : Option (String × CodeBinding) × List Char :=
    match matchOpenBare content0 with
    | some (key, rest) =>
      match bindingsGet bindings key with
      | some b =>
        if b.type == BindingType.comment && key ∉ blockCommentKeys then
          (some (key, b), rest)
        else (none, content0)
      | none => (none, content0)
    | none => (none, content0)
  let isInsideActiveBlock := openBlockComments.any (bindingFalse bindings)
  let pm := processMarkers bindings commentStyle blockCommentKeys openBlockComments
    effectiveLanguage ⟨lt.2⟩
  let hasActiveBlockStart := pm.2.blockStartsOnLine.any (bindingFalse bindings)
  let hasActiveBlockEnd := pm.2.blockEndsOnLine.any (bindingFalse bindings)
  let shouldGrayLine := isInsideActiveBlock || hasActiveBlockStart || hasActiveBlockEnd
  (buildLineHtml declared commentStyle ⟨indent⟩ pm.1 lt.1 shouldGrayLine lineNumber,
    pm.2.openBlockComments)

/-- One step of the zone tracker of `renderTemplate` (lines 625-650):
from the current zone and the line, the effective language used to render
this line and the zone for the following lines.  Transitions only happen
when the declared language is `html`. -/
def zoneStep (declared : Language) (currentZone : Language) (line : String) :
    Language × Language :=
  if declared == Language.html then
    let stripped := stripForTagDetection line
    let afterClose : Language × Language :=
      if currentZone == Language.scss && isClosingStyleTag stripped then
        (Language.html, Language.html)
      else if currentZone == Language.typescript && isClosingScriptTag stripped then
        (Language.html, Language.html)
      else (currentZone, currentZone)
    if afterClose.2 == Language.html then
      if isOpeningStyleTag stripped && !isClosingStyleTag stripped then
        (Language.html, Language.scss)
      else if isOpeningScriptTag stripped && !isClosingScriptTag stripped then
        (Language.html, Language.typescript)
      else afterClose
    else afterClose
  else (currentZone, currentZone)

/-- The line loop of `renderTemplate` (lines 617-652), threading the
open-block set, the current zone and the line number.  A separator line
emits its span without consuming a line number or touching the state. -/
def renderTemplateLines (bindings : Bindings) (declared : Language)
    (showLineNumbers : Bool) (commentStyle : CommentStyle)
    (blockCommentKeys : List String) :
    List String → List String → Language → Nat → List String
  | [], _, _, _ => []
  | line :: rest, openBlocks, zone, n =>
    if line = "__SECTION_SEPARATOR__" then
      "<span class=\"section-separator\"></span>" ::
        renderTemplateLines bindings declared showLineNumbers commentStyle
          blockCommentKeys rest openBlocks zone n
    else
      let zs := zoneStep declared zone line
      let rl := renderLine bindings declared line commentStyle blockCommentKeys
        openBlocks (if showLineNumbers then n else 0) zs.1
      rl.1 :: renderTemplateLines bindings declared showLineNumbers commentStyle
        blockCommentKeys rest rl.2 zs.2 (n + 1)

/-- JS `string.split('\\n')`. -/
def splitNlAux : List Char → List Char → List String
  | [], acc => [⟨acc.reverse⟩]
  | c :: cs, acc =>
    if c = '\n' then ⟨acc.reverse⟩ :: splitNlAux cs []
    else splitNlAux cs (c :: acc)

def splitNl (s : String) : List String := splitNlAux s.data []

/-- `renderTemplate` (lines 604-656): split the assembled template on
newlines, compute the comment style and the block-comment key set, run
the line loop from an empty open-block set with the declared language as
the initial zone, and concatenate. -/
def renderTemplate (bindings : Bindings) (declared : Language)
    (showLineNumbers : Bool) (templateContent : String) : String :=
  String.join (renderTemplateLines bindings declared showLineNumbers
    (getCommentStyle declared) (findBlockCommentKeys templateContent)
    (splitNl templateContent) [] declared 1)

/-! ## Substring occurrence -/

/-- Does the literal `pat` occur (as a contiguous substring) in `l`? -/
def occursInL (pat l : List Char) : Bool :=
  existsPos (fun t => pat.isPrefixOf t) l

/-- String-level wrapper of `occursInL`. -/
def occursIn (pat s : String) : Bool := occursInL pat.data s.data

theorem occursInL_of_isPrefixOf {pat l : List Char} (h : pat.isPrefixOf l = true) :
    occursInL pat l = true := by
  cases l <;> simp [occursInL, existsPos, h]

theorem occursInL_cons {pat l : List Char} (c : Char) (h : occursInL pat l = true) :
    occursInL pat (c :: l) = true := by
  simp only [occursInL, existsPos, Bool.or_eq_true]
  right
  exact h

theorem occursInL_append {pat l : List Char} (x : List Char)
    (h : occursInL pat l = true) : occursInL pat (x ++ l) = true := by
  induction x with
  | nil => exact h
  | cons c cs ih => exact occursInL_cons c ih

/-! ## Marker accounting (claim C2) -/

/-- A substitution callback that allocates exactly one marker: the string
it substitutes is recorded, paired with its replacement HTML, at the end
of the `markers` map. -/
def AllocatesMarker (cb : α → PMSt → String × PMSt) : Prop :=
  ∀ m st, ∃ html,
    (cb m st).2.markers = st.markers ++ [((cb m st).1, html)]

theorem openCallback_allocates (bindings : Bindings) (bck : List String)
    (cs : CommentStyle) : AllocatesMarker (openCallback bindings bck cs) := by
  intro m st
  unfold openCallback
  dsimp only
  split
  · split
    · exact ⟨_, rfl⟩
    · exact ⟨_, rfl⟩
  · exact ⟨_, rfl⟩

theorem closeCallback_allocates (bindings : Bindings) (cs : CommentStyle) :
    AllocatesMarker (closeCallback bindings cs) := by
  intro m st
  unfold closeCallback
  dsimp only
  split
  · split
    · exact ⟨_, rfl⟩
    · exact ⟨_, rfl⟩
  · exact ⟨_, rfl⟩

/-- Every marker present after a substitution scan either predates the
scan or occurs in the scan's output (the callback substitutes the marker
text verbatim, and a replacement is never rescanned). -/
theorem scanReplace_markers_occur {α : Type} (tryM : List Char → Option (α × List Char))
    (cb : α → PMSt → String × PMSt) (hcb : AllocatesMarker cb) :
    ∀ (fuel : Nat) (l : List Char) (st : PMSt) (p : String × String),
      p ∈ (scanReplace tryM cb fuel l st).2.markers →
      p ∈ st.markers ∨ occursInL p.1.data (scanReplace tryM cb fuel l st).1 = true := by
  intro fuel
  induction fuel with
  | zero => intro l st p hp; exact Or.inl hp
  | succ n ih =>
    intro l st p hp
    cases l with
    | nil => exact Or.inl hp
    | cons c cs =>
      cases h : tryM (c :: cs) with
      | none =>
        simp only [scanReplace, h] at hp ⊢
        rcases ih cs st p hp with hin | hocc
        · exact Or.inl hin
        · exact Or.inr (occursInL_cons c hocc)
      | some mr =>
        obtain ⟨m, r⟩ := mr
        simp only [scanReplace, h] at hp ⊢
        rcases ih r (cb m st).2 p hp with hin | hocc
        · obtain ⟨html, heq⟩ := hcb m st
          rw [heq] at hin
          rcases List.mem_append.mp hin with hin' | hone
          · exact Or.inl hin'
          · right
            have hp1 : p.1 = (cb m st).1 := by
              simp only [List.mem_singleton] at hone
              rw [hone]
            rw [hp1]
            exact occursInL_of_isPrefixOf
              (List.isPrefixOf_iff_prefix.mpr (List.prefix_append _ _))
        · exact Or.inr (occursInL_append _ hocc)

/-- One marker is allocated per match found by the scan. -/
theorem scanReplace_markers_count {α : Type} (tryM : List Char → Option (α × List Char))
    (cb : α → PMSt → String × PMSt) (hcb : AllocatesMarker cb) :
    ∀ (fuel : Nat) (l : List Char) (st : PMSt),
      (scanReplace tryM cb fuel l st).2.markers.length =
        st.markers.length + (scanMatches tryM fuel l).length := by
  intro fuel
  induction fuel with
  | zero => intro l st; simp [scanReplace, scanMatches]
  | succ n ih =>
    intro l st
    cases l with
    | nil => simp [scanReplace, scanMatches]
    | cons c cs =>
      cases h : tryM (c :: cs) with
      | none =>
        simp only [scanReplace, scanMatches, h]
        exact ih cs st
      | some mr =>
        obtain ⟨m, r⟩ := mr
        simp only [scanReplace, scanMatches, h, List.length_cons]
        rw [ih r (cb m st).2]
        obtain ⟨html, heq⟩ := hcb m st
        rw [heq]
        simp only [List.length_append, List.length_cons, List.length_nil]
        omega

/-- **C2** (amended): `processMarkers` allocates exactly one opaque marker
per placeholder match of each substitution pass, every marker allocated by
a pass occurs verbatim in that pass's output, and the restoration step
performs exactly one first-occurrence replacement per allocated marker (the
returned state carries the full map).  The original claim's stronger
clause — that no marker-shaped token ever appears in the final
`processedContent` — fails when the line itself contains text of marker
shape (see the counterexample). -/
theorem C2_marker_protection
    (bindings : Bindings) (cs : CommentStyle) (bck obc : List String)
    (lang : Language) (content : String) (p1 p2 : List Char × PMSt)
    (hp1 : p1 = substOpen bindings bck cs content.data ⟨0, [], [], [], obc⟩)
    (hp2 : p2 = substClose bindings cs p1.1 p1.2) :
    (∀ p ∈ p1.2.markers, occursInL p.1.data p1.1 = true) ∧
    (∀ p ∈ p2.2.markers, p ∈ p1.2.markers ∨ occursInL p.1.data p2.1 = true) ∧
    p1.2.markers.length =
      (scanMatches matchOpenPH (content.data.length + 1) content.data).length ∧
    p2.2.markers.length = p1.2.markers.length +
      (scanMatches matchClosePH (p1.1.length + 1) p1.1).length ∧
    (processMarkers bindings cs bck obc lang content).2 = p2.2 ∧
    (processMarkers bindings cs bck obc lang content).1 =
      ⟨restoreMarkers (highlightDispatch lang ⟨p2.1⟩).data p2.2.markers⟩ := by
  subst hp1; subst hp2
  refine ⟨?_, ?_, ?_, ?_, rfl, rfl⟩
  · intro p hp
    simp only [substOpen] at hp ⊢
    rcases scanReplace_markers_occur matchOpenPH _
      (openCallback_allocates bindings bck cs) (content.data.length + 1)
      content.data ⟨0, [], [], [], obc⟩ p hp with hin | hocc
    · simp at hin
    · exact hocc
  · intro p hp
    simp only [substClose] at hp ⊢
    exact scanReplace_markers_occur matchClosePH _
      (closeCallback_allocates bindings cs) _ _ _ p hp
  · have h := scanReplace_markers_count matchOpenPH _
      (openCallback_allocates bindings bck cs) (content.data.length + 1)
      content.data ⟨0, [], [], [], obc⟩
    simp only [substOpen]
    simpa using h
  · have h := scanReplace_markers_count matchClosePH _
      (closeCallback_allocates bindings cs)
      ((substOpen bindings bck cs content.data ⟨0, [], [], [], obc⟩).1.length + 1)
      (substOpen bindings bck cs content.data ⟨0, [], [], [], obc⟩).1
      (substOpen bindings bck cs content.data ⟨0, [], [], [], obc⟩).2
    simp only [substClose]
    exact h

/-- Witness for C2: on the shell line `$\x7ba\x7d` with no bindings, the
single allocated marker `__BINDING_0__` occurs in the substituted text. -/
theorem C2_witness :
    occursInL "__BINDING_0__".data
      (substOpen [] [] (getCommentStyle Language.shell) "$\x7ba\x7d".data
        ⟨0, [], [], [], []⟩).1 = true :=
  (C2_marker_protection [] (getCommentStyle Language.shell) [] [] Language.shell
      "$\x7ba\x7d" _ _ rfl rfl).1
    ("__BINDING_0__", "<span class=\"token-unknown\">$\x7ba\x7d</span>") (by decide)

/-- **C2** counterexample: a shell line whose literal text starts with the
marker-shaped token `__BINDING_0__` followed by a real placeholder.  The
placeholder is substituted by the marker `__BINDING_0__`; after
highlighting, the single first-occurrence restoration replaces the literal
prefix instead, and the real marker token survives into the returned
`processedContent`, contradicting the claim's "no marker token string
appears in the returned processedContent". -/
theorem C2_counterexample :
    occursIn "__BINDING_0__"
      (processMarkers [] (getCommentStyle Language.shell) [] [] Language.shell
        "__BINDING_0__$\x7ba\x7d").1 = true := by decide

/-! ## Closing-placeholder removal (claim C4) -/

theorem takeWhile_append_not (p : Char → Bool) (xs : List Char) (y : Char)
    (ys : List Char) (hx : ∀ c ∈ xs, p c = true) (hy : p y = false) :
    (xs ++ y :: ys).takeWhile p = xs ∧ (xs ++ y :: ys).dropWhile p = y :: ys := by
  induction xs with
  | nil => simp [List.takeWhile_cons, List.dropWhile_cons, hy]
  | cons a as ih =>
    have ha := hx a (by simp)
    have ih' := ih (fun c hc => hx c (by simp [hc]))
    simp [List.takeWhile_cons, List.dropWhile_cons, ha, ih'.1, ih'.2]

/-- The exact span consumed by a successful closing-placeholder match:
dollar, brace, slash, a nonempty all-`[\w-]` key, closing brace. -/
theorem matchClosePH_some_shape (l : List Char) (m : String) (r : List Char)
    (h : matchClosePH l = some (m, r)) :
    l = '$' :: '\x7b' :: '/' :: (m.data ++ '\x7d' :: r) ∧ m.data ≠ [] ∧
      ∀ c ∈ m.data, isWordHyphen c = true := by
  unfold matchClosePH at h
  split at h
  · rename_i rest
    split at h
    · simp at h
    · rename_i hne
      split at h
      · rename_i rest3 hdrop
        simp only [Option.some.injEq, Prod.mk.injEq] at h
        obtain ⟨h1, h2⟩ := h
        subst h2
        subst h1
        refine ⟨?_, ?_, ?_⟩
        · have hsplit : rest = rest.takeWhile isWordHyphen ++ ('\x7d' :: rest3) := by
            conv_lhs => rw [← List.takeWhile_append_dropWhile
              (p := isWordHyphen) (l := rest)]
            rw [hdrop]
          exact congrArg (fun t => '$' :: '\x7b' :: '/' :: t) hsplit
        · intro hnil
          have hnil' : rest.takeWhile isWordHyphen = [] := hnil
          exact hne (by simp [hnil'])
        · intro c hc
          exact List.mem_takeWhile_imp hc
      · simp at h
  · simp at h

/-- At a position where the text literally reads `$\x7b/key\x7d…` (with
`key` a nonempty `[\w-]` word), the closing-placeholder matcher succeeds
and captures exactly `key`. -/
theorem matchClosePH_at_occurrence (key : String) (v : List Char)
    (hk : key.data ≠ []) (hw : ∀ c ∈ key.data, isWordHyphen c = true) :
    matchClosePH ('$' :: '\x7b' :: '/' :: (key.data ++ '\x7d' :: v)) =
      some (key, v) := by
  have ht := takeWhile_append_not isWordHyphen key.data '\x7d' v hw (by decide)
  have hstep : matchClosePH ('$' :: '\x7b' :: '/' :: (key.data ++ '\x7d' :: v)) =
      (if ((key.data ++ '\x7d' :: v).takeWhile isWordHyphen).isEmpty then none
       else
        match (key.data ++ '\x7d' :: v).dropWhile isWordHyphen with
        | '\x7d' :: rest3 =>
          some (⟨(key.data ++ '\x7d' :: v).takeWhile isWordHyphen⟩, rest3)
        | _ => none) := rfl
  rw [hstep, ht.1, ht.2]
  rw [if_neg (by simpa using hk)]
  rfl

/-- The characters after the leading dollar of a match span are never a
dollar, so an occurrence of `$\x7b/key\x7d` starting strictly inside a
match span is impossible: if it starts past the front of the line, it
survives, in full, into the rest that the scan continues on. -/
theorem occurrence_past_match (key : String) (m : String) (r u v l : List Char)
    (hw : ∀ c ∈ m.data, isWordHyphen c = true)
    (hl : l = '$' :: '\x7b' :: '/' :: (m.data ++ '\x7d' :: r))
    (hocc : l = u ++ ('$' :: '\x7b' :: '/' :: (key.data ++ ['\x7d'])) ++ v)
    (hu : u ≠ []) :
    ∃ u', r = u' ++ ('$' :: '\x7b' :: '/' :: (key.data ++ ['\x7d'])) ++ v := by
  obtain ⟨a, u₀, rfl⟩ : ∃ a u₀, u = a :: u₀ := by
    cases u with
    | nil => exact absurd rfl hu
    | cons a u₀ => exact ⟨a, u₀, rfl⟩
  set pat : List Char := '$' :: '\x7b' :: '/' :: (key.data ++ ['\x7d']) with hpat
  set tail : List Char := '\x7b' :: '/' :: (m.data ++ ['\x7d']) with htail
  have hspanr : l = ('$' :: tail) ++ r := by
    rw [hl, htail]
    simp
  have huv : l = (a :: u₀) ++ (pat ++ v) := by rw [hocc]; simp
  have hle : ('$' :: tail).length ≤ (a :: u₀).length := by
    by_contra hlt
    push_neg at hlt
    have hub : u₀.length < tail.length := by
      simp only [List.length_cons] at hlt
      omega
    have hd1 : l.drop (u₀.length + 1) = pat ++ v := by
      rw [huv]
      have hlen : (a :: u₀).length = u₀.length + 1 := by simp
      rw [← hlen, List.drop_left]
    have hd2 : l.drop (u₀.length + 1) = tail.drop u₀.length ++ r := by
      rw [hspanr]
      have : ('$' :: tail) ++ r = '$' :: (tail ++ r) := by simp
      rw [this, List.drop_succ_cons]
      exact List.drop_append_of_le_length (Nat.le_of_lt hub)
    have heq : pat ++ v = tail.drop u₀.length ++ r := by rw [← hd1, hd2]
    cases hdrop : tail.drop u₀.length with
    | nil =>
      have : tail.length ≤ u₀.length := by
        have := congrArg List.length hdrop
        simp only [List.length_drop, List.length_nil] at this
        omega
      omega
    | cons x xs =>
      have hx : x ∈ tail := List.drop_subset u₀.length tail (hdrop ▸ List.mem_cons_self x xs)
      have hxd : x = '$' := by
        rw [hdrop] at heq
        have : pat ++ v = x :: (xs ++ r) := by simpa using heq
        rw [hpat] at this
        simp only [List.cons_append, List.cons.injEq] at this
        exact this.1.symm
      subst hxd
      rw [htail] at hx
      simp only [List.mem_cons, List.mem_append, List.mem_singleton] at hx
      rcases hx with h' | h' | h' | h'
      · exact absurd h' (by decide)
      · exact absurd h' (by decide)
      · exact absurd (hw '$' h') (by decide)
      · exact absurd h' (by decide)
  have hr : r = (a :: u₀).drop ('$' :: tail).length ++ pat ++ v := by
    have hdrop1 : l.drop ('$' :: tail).length = r := by
      rw [hspanr]
      exact List.drop_left _ r
    have hdrop2 : l.drop ('$' :: tail).length =
        (a :: u₀).drop ('$' :: tail).length ++ (pat ++ v) := by
      rw [huv]
      exact List.drop_append_of_le_length hle
    rw [← hdrop1, hdrop2]
    simp
  exact ⟨(a :: u₀).drop ('$' :: tail).length, hr⟩

/-- Completeness of the closing-placeholder scan: if `$\x7b/key\x7d`
occurs anywhere in the line, `key` is among the scanned matches. -/
theorem closeKey_mem_scanMatches (key : String) (hk : key.data ≠ [])
    (hw : ∀ c ∈ key.data, isWordHyphen c = true) :
    ∀ (fuel : Nat) (l : List Char), l.length < fuel →
      (∃ u v, l = u ++ ('$' :: '\x7b' :: '/' :: (key.data ++ ['\x7d'])) ++ v) →
      key ∈ scanMatches matchClosePH fuel l := by
  intro fuel
  induction fuel with
  | zero => intro l hlen _; omega
  | succ n ih =>
    intro l hlen hocc
    obtain ⟨u, v, hl⟩ := hocc
    cases l with
    | nil =>
      exfalso
      have := congrArg List.length hl
      simp at this
      omega
    | cons c cs =>
      have hpatv : ∀ w : List Char,
          ('$' :: '\x7b' :: '/' :: (key.data ++ ['\x7d'])) ++ w =
            '$' :: '\x7b' :: '/' :: (key.data ++ '\x7d' :: w) := by
        intro w
        simp
      cases h : matchClosePH (c :: cs) with
      | some mr =>
        obtain ⟨m, r⟩ := mr
        by_cases hm : m = key
        · subst hm
          simp only [scanMatches, h]
          exact List.mem_cons_self _ _
        · have hu : u ≠ [] := by
            intro hnil
            subst hnil
            rw [List.nil_append, hpatv v] at hl
            rw [hl, matchClosePH_at_occurrence key v hk hw] at h
            simp only [Option.some.injEq, Prod.mk.injEq] at h
            exact hm h.1.symm
          obtain ⟨hshape, _, hwm⟩ := matchClosePH_some_shape (c :: cs) m r h
          obtain ⟨u', hr⟩ := occurrence_past_match key m r u v (c :: cs) hwm hshape hl hu
          have hrlen : r.length < n := by
            have := matchClosePH_shrinks (c :: cs) m r h
            simp only [List.length_cons] at this hlen
            omega
          have hmem := ih r hrlen ⟨u', v, hr⟩
          simp only [scanMatches, h]
          exact List.mem_cons_of_mem _ hmem
      | none =>
        have hu : u ≠ [] := by
          intro hnil
          subst hnil
          rw [List.nil_append, hpatv v] at hl
          rw [hl, matchClosePH_at_occurrence key v hk hw] at h
          exact Option.noConfusion h
        obtain ⟨a, u₀, rfl⟩ : ∃ a u₀, u = a :: u₀ := by
          cases u with
          | nil => exact absurd rfl hu
          | cons a u₀ => exact ⟨a, u₀, rfl⟩
        have hcs : cs = u₀ ++ ('$' :: '\x7b' :: '/' :: (key.data ++ ['\x7d'])) ++ v := by
          have : c :: cs = a :: (u₀ ++ ('$' :: '\x7b' :: '/' :: (key.data ++ ['\x7d'])) ++ v) := by
            rw [hl]
            simp
          exact (List.cons.injEq _ _ _ _ ▸ this).2
        simp only [scanMatches, h]
        exact ih cs (by simp only [List.length_cons] at hlen; omega) ⟨u₀, v, hcs⟩

/-- `closeCallback` never adds a key to the open-block set. -/
theorem closeCallback_preserves_notmem (bindings : Bindings) (cs : CommentStyle)
    (key m : String) (st : PMSt) (h : key ∉ st.openBlockComments) :
    key ∉ (closeCallback bindings cs m st).2.openBlockComments := by
  unfold closeCallback
  dsimp only
  split
  · split
    · intro hmem
      exact h (List.mem_of_mem_filter hmem)
    · exact h
  · exact h

/-- Under the comment-type / nonempty-end-indicator conditions,
`closeCallback` on `key` removes `key` from the open-block set. -/
theorem closeCallback_deletes (bindings : Bindings) (cs : CommentStyle)
    (key : String) (b : CodeBinding) (st : PMSt)
    (hb : bindingsGet bindings key = some b) (ht : b.type = BindingType.comment)
    (he : cs.blockEndIndicator ≠ "") :
    key ∉ (closeCallback bindings cs key st).2.openBlockComments := by
  unfold closeCallback
  rw [hb]
  dsimp only
  rw [if_pos (by simp [ht, he])]
  intro hmem
  simp only [setDelete, List.mem_filter, decide_eq_true_eq] at hmem
  exact hmem.2 rfl

theorem closeFold_preserves_notmem (bindings : Bindings) (cs : CommentStyle)
    (key : String) :
    ∀ (ms : List String) (st : PMSt), key ∉ st.openBlockComments →
      key ∉ (ms.foldl (fun s m => (closeCallback bindings cs m s).2) st).openBlockComments := by
  intro ms
  induction ms with
  | nil => intro st h; exact h
  | cons m ms' ih =>
    intro st h
    exact ih _ (closeCallback_preserves_notmem bindings cs key m st h)

theorem closeFold_removes (bindings : Bindings) (cs : CommentStyle)
    (key : String) (b : CodeBinding)
    (hb : bindingsGet bindings key = some b) (ht : b.type = BindingType.comment)
    (he : cs.blockEndIndicator ≠ "") :
    ∀ (ms : List String) (st : PMSt), key ∈ ms →
      key ∉ (ms.foldl (fun s m => (closeCallback bindings cs m s).2) st).openBlockComments := by
  intro ms
  induction ms with
  | nil => intro st h; simp at h
  | cons m ms' ih =>
    intro st h
    by_cases hm : m = key
    · subst hm
      exact closeFold_preserves_notmem bindings cs m ms' _
        (closeCallback_deletes bindings cs m b st hb ht he)
    · rcases List.mem_cons.mp h with h' | h'
      · exact absurd h'.symm hm
      · exact ih _ h'

/-- **C4** (amended): for every comment style whose `blockEndIndicator` is
nonempty (the html, typescript and scss styles), processing a line that
contains the closing placeholder `$\x7b/key\x7d` of a comment-typed
binding removes `key` from the open-block state, and the close callback
substitutes an opaque `__COMMENT_END_n__` marker mapped to the block-close
glyph built from the style's `blockEndIndicator`.  The original claim's
"this removal happens for every declared language, including shell" fails:
shell's indicator is the empty string, which is falsy, so the branch is
skipped (see the counterexample). -/
theorem C4_close_removes_key (bindings : Bindings) (cs : CommentStyle)
    (key : String) (b : CodeBinding) (line : List Char) (st : PMSt)
    (hb : bindingsGet bindings key = some b) (ht : b.type = BindingType.comment)
    (he : cs.blockEndIndicator ≠ "") (hk : key.data ≠ [])
    (hw : ∀ c ∈ key.data, isWordHyphen c = true)
    (hocc : ∃ u v, line = u ++ ('$' :: '\x7b' :: '/' :: (key.data ++ ['\x7d'])) ++ v) :
    key ∉ (substClose bindings cs line st).2.openBlockComments ∧
    ∀ st' : PMSt, (closeCallback bindings cs key st').2.markers =
      st'.markers ++ [(mkMarker "__COMMENT_END_" st'.markerIndex,
        (if b.value == JSVal.bool true then "" else " ") ++
          ("<span class=\"block-end " ++
            (if b.value == JSVal.bool true then "block-toggle-inactive"
             else "block-toggle-active") ++ "\">" ++ cs.blockEndIndicator ++
            "</span>"))] := by
  constructor
  · have hstate := scanReplace_state matchClosePH (closeCallback bindings cs)
      (line.length + 1) line st
    simp only [substClose]
    rw [hstate]
    exact closeFold_removes bindings cs key b hb ht he _ st
      (closeKey_mem_scanMatches key hk hw (line.length + 1) line (by omega) hocc)
  · intro st'
    unfold closeCallback
    rw [hb]
    dsimp only
    rw [if_pos (by simp [ht, he])]

/-- A comment-typed binding used by the C4 instances. -/
def c4Binding : CodeBinding :=
  { key := "k", type := .comment, value := .bool false, disabled := false,
    min := none, max := none, step := none, options := [], carousel := false }

/-- Witness for C4: in scss (blockEndIndicator `*/`), processing the line
`$\x7b/k\x7d` removes `k` from the open-block set. -/
theorem C4_witness :
    "k" ∉ (substClose [("k", c4Binding)] (getCommentStyle Language.scss)
      "$\x7b/k\x7d".data ⟨0, [], [], [], ["k"]⟩).2.openBlockComments :=
  (C4_close_removes_key [("k", c4Binding)] (getCommentStyle Language.scss) "k"
    c4Binding "$\x7b/k\x7d".data ⟨0, [], [], [], ["k"]⟩ rfl rfl (by decide)
    (by decide) (by decide) ⟨[], [], by decide⟩).1

/-- **C4** counterexample: with the shell comment style the
`blockEndIndicator` is the empty string, so the closing placeholder of a
comment-typed binding takes the unknown-token branch: the key is *not*
removed from the open-block state, contradicting the claim's "this removal
happens for every declared language, including shell". -/
theorem C4_counterexample :
    (processMarkers [("k", c4Binding)] (getCommentStyle Language.shell) ["k"] ["k"]
      Language.shell "$\x7b/k\x7d").2.openBlockComments = ["k"] ∧
    (getCommentStyle Language.shell).blockEndIndicator = "" ∧
    c4Binding.type = BindingType.comment := by decide

/-! ## Grayed lines (claim C3) -/

/-- Does a rendered line carry the grayed modifier?  True exactly when the
line's outer span opens with the `code-line line-disabled` class list. -/
def lineMarkedDisabled (s : String) : Bool :=
  "<span class=\"code-line line-disabled\">".data.isPrefixOf s.data

theorem not_prefix_diverge (C : List Char) (a b : Char) (xs ys : List Char)
    (hab : a ≠ b) : ((C ++ a :: xs).isPrefixOf (C ++ b :: ys)) = false := by
  refine Bool.eq_false_iff.mpr (fun h => hab ?_)
  rw [List.isPrefixOf_iff_prefix, List.prefix_append_right_inj] at h
  exact (List.cons_prefix_cons.mp h).1

theorem disabled_prefix_gray (rest : List Char) :
    ("<span class=\"code-line line-disabled\">".data.isPrefixOf
      ("<span class=\"code-line line-disabled\">".data ++ rest)) = true := by
  rw [List.isPrefixOf_iff_prefix]
  exact List.prefix_append _ _

theorem disabled_not_prefix_plain (rest : List Char) :
    ("<span class=\"code-line line-disabled\">".data.isPrefixOf
      ("<span class=\"code-line\">".data ++ rest)) = false := by
  have h1 : "<span class=\"code-line line-disabled\">".data =
      "<span class=\"code-line".data ++ ' ' :: "line-disabled\">".data := by decide
  have h2 : "<span class=\"code-line\">".data ++ rest =
      "<span class=\"code-line".data ++ '\"' :: ('>' :: rest) := by
    have h : "<span class=\"code-line\">".data =
        "<span class=\"code-line".data ++ ['\"', '>'] := by decide
    rw [h, List.append_assoc]
    rfl
  rw [h1, h2]
  exact not_prefix_diverge _ ' ' '\"' _ _ (by decide)

/-- On a line without a line toggle, `buildLineHtml` emits the grayed
modifier exactly when `shouldGrayLine` holds. -/
theorem buildLineHtml_none_gray (declared : Language) (cs : CommentStyle)
    (indent processedContent : String) (gray : Bool) (n : Nat) :
    lineMarkedDisabled
      (buildLineHtml declared cs indent processedContent none gray n) = gray := by
  cases gray with
  | true =>
    simp only [buildLineHtml]
    rw [if_pos trivial]
    simp only [lineMarkedDisabled, String.data_append, List.append_assoc]
    exact disabled_prefix_gray _
  | false =>
    simp only [buildLineHtml]
    rw [if_neg (by simp)]
    simp only [lineMarkedDisabled, String.data_append, List.append_assoc]
    exact disabled_not_prefix_plain _


/-- The comment binding of the C3 template, with the given value. -/
def c3Binding (v : Bool) : CodeBinding :=
  { key := "k", type := .comment, value := .bool v, disabled := false,
    min := none, max := none, step := none, options := [], carousel := false }

def c3Bindings (v : Bool) : Bindings := [("k", c3Binding v)]

/-- The two-line block-comment template of the claim. -/
def c3Template : String := "$\x7bk\x7dline1\nline2$\x7b/k\x7d"

/-- **C3** (amended): (i) on the claim's two-line template
`$\x7bk\x7dline1\nline2$\x7b/k\x7d` with `k` a comment binding, both
rendered lines carry the grayed (`line-disabled`) modifier when `k` is
`false` and neither does when `k` is `true`; (ii) in general, a rendered
line that does **not** begin with a line-toggle comment binding carries the
grayed modifier iff the line lies inside an open block whose binding value
is `false`, or a block start or end of such a binding occurs on the line.
(The original claim's unrestricted "iff" fails for line-toggle lines — see
the counterexample.) -/
theorem C3_grayed_lines (bindings : Bindings) (declared : Language)
    (line : String) (cs : CommentStyle) (bck obc : List String) (n : Nat)
    (lang : Language)
    (hnt : ∀ key rest b,
      matchOpenBare (line.data.drop (line.data.takeWhile Char.isWhitespace).length) =
        some (key, rest) →
      bindingsGet bindings key = some b →
      ¬(b.type = BindingType.comment ∧ key ∉ bck)) :
    (lineMarkedDisabled (renderLine bindings declared line cs bck obc n lang).1 =
      (obc.any (bindingFalse bindings) ||
        (processMarkers bindings cs bck obc lang
          ⟨line.data.drop (line.data.takeWhile Char.isWhitespace).length⟩).2.blockStartsOnLine.any
            (bindingFalse bindings) ||
        (processMarkers bindings cs bck obc lang
          ⟨line.data.drop (line.data.takeWhile Char.isWhitespace).length⟩).2.blockEndsOnLine.any
            (bindingFalse bindings))) ∧
    ((renderTemplateLines (c3Bindings false) Language.scss false
        (getCommentStyle Language.scss) (findBlockCommentKeys c3Template)
        (splitNl c3Template) [] Language.scss 1).map lineMarkedDisabled =
      [true, true]) ∧
    ((renderTemplateLines (c3Bindings true) Language.scss false
        (getCommentStyle Language.scss) (findBlockCommentKeys c3Template)
        (splitNl c3Template) [] Language.scss 1).map lineMarkedDisabled =
      [false, false]) := by
  refine ⟨?_, by decide, by decide⟩
  unfold renderLine
  dsimp only
  cases hm : matchOpenBare
      (line.data.drop (line.data.takeWhile Char.isWhitespace).length) with
  | none =>
    dsimp only
    rw [buildLineHtml_none_gray]
  | some kr =>
    obtain ⟨key, rest⟩ := kr
    dsimp only
    cases hbg : bindingsGet bindings key with
    | none =>
      dsimp only
      rw [buildLineHtml_none_gray]
    | some b =>
      have h' := hnt key rest b hm hbg
      have hcond : (b.type == BindingType.comment && decide (key ∉ bck)) = false := by
        by_cases htc : b.type = BindingType.comment
        · have hkin : key ∈ bck := by
            by_contra hk
            exact h' ⟨htc, hk⟩
          simp [hkin]
        · simp [htc]
      dsimp only
      simp only [hcond, Bool.false_eq_true, if_false]
      rw [buildLineHtml_none_gray]

/-- Witness for C3: a plain line with no bindings and no open block is not
grayed. -/
theorem C3_witness :
    lineMarkedDisabled (renderLine [] Language.scss "x"
      (getCommentStyle Language.scss) [] [] 0 Language.scss).1 = false := by
  have h := (C3_grayed_lines [] Language.scss "x" (getCommentStyle Language.scss)
    [] [] 0 Language.scss (fun key rest b hm _ => by
      rw [show matchOpenBare
          ("x".data.drop ("x".data.takeWhile Char.isWhitespace).length) = none
        from by decide] at hm
      exact Option.noConfusion hm)).1
  rw [h]
  decide

/-- The line-toggle comment binding of the C3 counterexample. -/
def c3ToggleBindings : Bindings :=
  [("t", { key := "t", type := .comment, value := .bool false, disabled := false,
           min := none, max := none, step := none, options := [], carousel := false })]

/-- **C3** counterexample: the claim's general clause says a line is grayed
*iff* it lies inside an open commented block or a block start/end of such a
binding occurs on the line.  A line beginning with a line-toggle comment
binding valued `false` is rendered with the `line-disabled` modifier even
though there is no open block and no block start or end on the line. -/
theorem C3_counterexample :
    lineMarkedDisabled (renderLine c3ToggleBindings Language.scss "$\x7bt\x7dx"
      (getCommentStyle Language.scss) [] [] 0 Language.scss).1 = true ∧
    (processMarkers c3ToggleBindings (getCommentStyle Language.scss) [] []
      Language.scss "x").2.blockStartsOnLine = [] ∧
    (processMarkers c3ToggleBindings (getCommentStyle Language.scss) [] []
      Language.scss "x").2.blockEndsOnLine = [] := by decide

/-! ## Zone switching (claim C5) -/

/-- **C5** (amended): with declared language `html`, an opening
`<style …>` / `<script …>` tag on the placeholder-stripped line (without
its closing tag on the same line) keeps the line itself in the markup
zone and switches the zone to `scss` / `typescript` from the next line,
**provided the current zone is markup**; a closing `</style>` /
`</script>` seen in the corresponding nested zone renders that line as
markup and switches back; with any other declared language the zone never
moves.  The original claim omits the current-zone proviso: an opening
`<style>` inside a script zone does not switch (see the counterexample). -/
theorem C5_zone_switching (declared z : Language) (line : String) :
    (declared ≠ Language.html → zoneStep declared z line = (z, z)) ∧
    (z = Language.html →
      isOpeningStyleTag (stripForTagDetection line) = true →
      isClosingStyleTag (stripForTagDetection line) = false →
      zoneStep Language.html z line = (Language.html, Language.scss)) ∧
    (z = Language.html →
      (isOpeningStyleTag (stripForTagDetection line) &&
        !isClosingStyleTag (stripForTagDetection line)) = false →
      isOpeningScriptTag (stripForTagDetection line) = true →
      isClosingScriptTag (stripForTagDetection line) = false →
      zoneStep Language.html z line = (Language.html, Language.typescript)) ∧
    (z = Language.scss →
      isClosingStyleTag (stripForTagDetection line) = true →
      (zoneStep Language.html z line).1 = Language.html) ∧
    (z = Language.typescript →
      isClosingScriptTag (stripForTagDetection line) = true →
      (zoneStep Language.html z line).1 = Language.html) ∧
    (zoneStep Language.html Language.html "<style>" =
        (Language.html, Language.scss) ∧
      zoneStep Language.html Language.scss ".x\x7bcolor:red;\x7d" =
        (Language.scss, Language.scss) ∧
      zoneStep Language.html Language.scss "</style>" =
        (Language.html, Language.html) ∧
      zoneStep Language.html Language.html "<script>" =
        (Language.html, Language.typescript) ∧
      zoneStep Language.html Language.typescript "</script>" =
        (Language.html, Language.html)) := by
  refine ⟨?_, ?_, ?_, ?_, ?_, by decide⟩
  · intro h
    unfold zoneStep
    rw [if_neg (by simp [h])]
  · intro hz hop hcl
    subst hz
    simp [zoneStep, hop, hcl]
  · intro hz hsty hsc hcc
    subst hz
    simp [zoneStep, hsty, hsc, hcc]
  · intro hz hcl
    subst hz
    cases h1 : isOpeningStyleTag (stripForTagDetection line) <;>
      cases h3 : isOpeningScriptTag (stripForTagDetection line) <;>
      cases h4 : isClosingScriptTag (stripForTagDetection line) <;>
      simp [zoneStep, hcl, h1, h3, h4]
  · intro hz hcc
    subst hz
    cases h1 : isOpeningStyleTag (stripForTagDetection line) <;>
      cases h2 : isClosingStyleTag (stripForTagDetection line) <;>
      cases h3 : isOpeningScriptTag (stripForTagDetection line) <;>
      simp [zoneStep, hcc, h1, h2, h3]

/-- Witness for C5: an opening `<style x>` line in the markup zone keeps
the line as markup and switches the zone to scss. -/
theorem C5_witness :
    zoneStep Language.html Language.html "<style x>" =
      (Language.html, Language.scss) :=
  (C5_zone_switching Language.html Language.html "<style x>").2.1 rfl
    (by decide) (by decide)

/-- **C5** counterexample: in a script zone (entered by an earlier
`<script>` line), a line whose stripped text contains an opening
`<style>` tag does **not** switch the zone and is not highlighted as
markup: the claim's unconditional switching rule fails. -/
theorem C5_counterexample :
    zoneStep Language.html Language.typescript "<style>" =
      (Language.typescript, Language.typescript) ∧
    isOpeningStyleTag (stripForTagDetection "<style>") = true ∧
    zoneStep Language.html Language.html "<script>" =
      (Language.html, Language.typescript) := by decide

end ICode
